import Mathlib

/-!
A shallow embedding of the VFS directory-cache core of `src/lib/vfs/direntry.c`
(the shared cache layer under mc's archive- and session-based filesystems).

The mutable C heap is modelled as an explicit state (`VfsState`) holding
association lists of inodes, entries and superblocks keyed by numeric ids,
together with the file-scope counters (`total_inodes`, `total_entries`), the
class-local fields (`verrno`, `flush`, `inode_counter`) and an event log that
records calls into subclass hooks and host-system effects (`unlink`,
`close`, user messages).  Subclass hooks and external helpers are oracles
packaged in `Hooks`.  Recursive C functions are fuel-indexed; every theorem
either quantifies over a `fuel + 1` shape or carries an explicit fuel bound.
-/

/-- Host errno values; only their distinctness matters to the model. -/
def ENOENT : Nat := 2

def EIOnum : Nat := 5

def EAGAIN : Nat := 11

def EFAULT : Nat := 14

def EEXIST : Nat := 17

def ENOTDIR : Nat := 20

def EISDIR : Nat := 21

def EINVAL : Nat := 22

def ELOOP : Nat := 40

/-- File-kind bits of `st_mode` (POSIX values). -/
def S_IFMT : Nat := 0o170000

def S_IFDIR : Nat := 0o040000

def S_IFREG : Nat := 0o100000

def S_IFLNK : Nat := 0o120000

def S_ISDIR (m : Nat) : Bool := Nat.land m S_IFMT == S_IFDIR

def S_ISLNK (m : Nat) : Bool := Nat.land m S_IFMT == S_IFLNK

/-- Modelled from the spec: `LINK_FOLLOW` is the positive sentinel hop budget
for symlink resolution (defined in `vfs.h`, which is not among the sources;
the spec only requires it to be positive). -/
def LINK_FOLLOW : Int := 15

/-- Modelled from the spec: `LINK_NO_FOLLOW` (−1) means "do not follow links". -/
def LINK_NO_FOLLOW : Int := -1

/-- The fields of `struct stat` that `direntry.c` reads or writes. -/
structure VStat where
  st_dev : Nat := 0
  st_ino : Nat := 0
  st_mode : Nat := 0
  st_nlink : Nat := 0
  st_uid : Nat := 0
  st_gid : Nat := 0
  st_rdev : Nat := 0
  st_size : Int := 0
  st_atime : Int := 0
  st_mtime : Int := 0
  st_ctime : Int := 0
  deriving DecidableEq

/-- `struct vfs_s_inode`: subclass-private `data` is not modelled (opaque to
the core); `timestamp` keeps only `tv_sec`, the sole field the core reads. -/
structure VfsInode where
  st : VStat
  linkname : Option String := none
  localname : Option String := none
  superId : Nat
  ent : Option Nat := none
  subdir : List Nat := []
  timestamp : Int := 0
  deriving DecidableEq

/-- `struct vfs_s_entry`. -/
structure VfsEntry where
  name : String
  dir : Option Nat := none
  ino : Nat
  deriving DecidableEq

/-- `struct vfs_s_super` (subclass-private part not modelled). -/
structure VfsSuper where
  name : Option String := none
  root : Option Nat := none
  ino_usage : Int := 0
  fd_usage : Int := 0
  want_stale : Bool := false
  deriving DecidableEq

/-- `linear` states of a file handle (`LS_LINEAR_*`). -/
inductive LinState where
  | off
  | preopen
  | lopen
  | lclosed
  deriving DecidableEq

/-- `vfs_file_handler_t` (subclass-private slot not modelled). -/
structure Fh where
  pos : Int := 0
  ino : Nat
  handle : Int := -1
  changed : Bool := false
  linear : LinState := .off
  deriving DecidableEq

/-- `struct dirhandle`: cursor into a directory's child list. -/
structure DirH where
  cur : List Nat
  dir : Nat
  deriving DecidableEq

/-- Observable external effects: subclass hook invocations and host calls. -/
inductive VfsEvent where
  | freeInodeHook (ino : Nat)
  | initInodeHook (ino : Nat)
  | initEntryHook (ent : Nat)
  | freeArchiveHook (sup : Nat)
  | unlinkHost (path : String)
  | message (text : String)
  | dirLoadCall (ino : Nat) (path : String)
  | linearCloseCall
  | fhOpenCall
  | fhCloseCall
  | fileStoreCall (path : String) (localname : Option String)
  | hostClose (fd : Int)
  | tmpFile (path : String)
  | logfileOpened (path : String)
  deriving DecidableEq

/-- Association-list lookup (first binding wins, as for a C pointer heap). -/
def lookupA {α : Type} (l : List (Nat × α)) (k : Nat) : Option α :=
  (l.find? (fun p => p.1 == k)).map (fun p => p.2)

/-- Replace the value bound to a key. -/
def updateA {α : Type} (l : List (Nat × α)) (k : Nat) (v : α) : List (Nat × α) :=
  l.map (fun p => if p.1 == k then (k, v) else p)

/-- Drop all bindings of a key (deallocation). -/
def removeA {α : Type} (l : List (Nat × α)) (k : Nat) : List (Nat × α) :=
  l.filter (fun p => p.1 != k)

/-- Apply a function to the value bound to a key (no-op when absent). -/
def modifyA {α : Type} (l : List (Nat × α)) (k : Nat) (f : α → α) : List (Nat × α) :=
  l.map (fun p => if p.1 == k then (k, f p.2) else p)

/-- Remove the first occurrence of an element (`g_list_remove`). -/
def removeFirst : List Nat → Nat → List Nat
  | [], _ => []
  | x :: xs, y => if x = y then xs else x :: removeFirst xs y

/-- The whole mutable world of one VFS class. -/
structure VfsState where
  inodes : List (Nat × VfsInode) := []
  entries : List (Nat × VfsEntry) := []
  supers : List (Nat × VfsSuper) := []
  superList : List Nat := []
  nextId : Nat := 0
  inode_counter : Nat := 0
  total_inodes : Int := 0
  total_entries : Int := 0
  flush : Bool := false
  verrno : Nat := 0
  now : Int := 0
  umask : Nat := 0
  uid : Nat := 0
  gid : Nat := 0
  stamps : List Nat := []
  events : List VfsEvent := []
  deriving DecidableEq

def VfsState.lookupIno (s : VfsState) (i : Nat) : Option VfsInode :=
  lookupA s.inodes i

def VfsState.lookupEnt (s : VfsState) (e : Nat) : Option VfsEntry :=
  lookupA s.entries e

def VfsState.lookupSuper (s : VfsState) (x : Nat) : Option VfsSuper :=
  lookupA s.supers x

def VfsState.setIno (s : VfsState) (i : Nat) (v : VfsInode) : VfsState :=
  { s with inodes := updateA s.inodes i v }

def VfsState.modifyIno (s : VfsState) (i : Nat) (f : VfsInode → VfsInode) : VfsState :=
  { s with inodes := modifyA s.inodes i f }

def VfsState.modifyEnt (s : VfsState) (e : Nat) (f : VfsEntry → VfsEntry) : VfsState :=
  { s with entries := modifyA s.entries e f }

def VfsState.modifySuper (s : VfsState) (x : Nat) (f : VfsSuper → VfsSuper) : VfsState :=
  { s with supers := modifyA s.supers x f }

def VfsState.setErrno (s : VfsState) (e : Nat) : VfsState :=
  { s with verrno := e }

def VfsState.addEvent (s : VfsState) (ev : VfsEvent) : VfsState :=
  { s with events := s.events ++ [ev] }

/-- Name of an entry id, as seen by the child-list scans. -/
def entName (s : VfsState) (e : Nat) : Option String :=
  (s.lookupEnt e).map (fun x => x.name)

/-- Resolver flag word `FL_*`, as a record of the individual bits. -/
structure Flags where
  mkdir : Bool := false
  mkfile : Bool := false
  dir : Bool := false
  follow : Bool := false
  deriving DecidableEq

/-- Bits of the `open` flags word that `vfs_s_open` inspects. -/
structure OFlags where
  creat : Bool := false
  excl : Bool := false
  linear : Bool := false
  deriving DecidableEq

/-- Subclass hooks and external helpers, as oracles.  A `has_*` flag models a
non-NULL member of `struct vfs_s_subclass` (the `CALL` macro checks them);
`writable` models `me->write != NULL`, which `vfs_s_init_class` installs
exactly when the subclass is not read-only. -/
structure Hooks where
  remote : Bool := false
  writable : Bool := true
  rdev : Nat := 0
  has_free_inode : Bool := false
  has_init_inode : Bool := false
  has_init_entry : Bool := false
  has_free_archive : Bool := false
  dir_load_ok : String → Bool := fun _ => true
  has_linear_start : Bool := false
  has_fh_open : Bool := false
  fh_open_ok : Bool := true
  has_fh_close : Bool := false
  fh_close_res : Int := 0
  has_file_store : Bool := false
  file_store_ok : Bool := true
  has_archive_check : Bool := false
  archive_check_ok : String → Bool := fun _ => true
  archive_same : Nat → String → Nat := fun _ _ => 0
  open_archive : String → Option String := fun n => some n
  split : String → String × Option String × Option String := fun p => (p, some p, none)
  mkstemps : Nat → Option String := fun _ => some "tmpfile"
  host_open : String → Option Int := fun _ => some 3
  host_errno : Nat := 2

/-- Split a character list at a separator character. -/
def splitSeg (c : Char) : List Char → List (List Char)
  | [] => [[]]
  | x :: xs =>
    let r := splitSeg c xs
    if x = c then [] :: r
    else
      match r with
      | [] => [[x]]
      | y :: ys => (x :: y) :: ys

/-- Join segments with single separators. -/
def joinSegs : List (List Char) → List Char
  | [] => []
  | [x] => x
  | x :: y :: ys => x ++ '/' :: joinSegs (y :: ys)

/-- True when the string begins with a path separator. -/
def startsWithSep (p : String) : Bool :=
  match p.toList with
  | c :: _ => c = '/'
  | [] => false

/-- Modelled from the spec: `custom_canonicalize_pathname` with
`CANON_PATH_ALL & ~CANON_PATH_REMDOUBLEDOTS` (the helper lives in `lib/util.c`,
not among the sources).  Duplicate separators collapse, `./` segments vanish,
trailing separators collapse, and `..` segments are preserved literally. -/
def canonicalize (p : String) : String :=
  let segs := (splitSeg '/' p.toList).filter (fun t => t ≠ [] ∧ t ≠ ['.'])
  let joined := joinSegs segs
  if startsWithSep p then String.mk ('/' :: joined) else String.mk joined

/-- Strip leading path separators (the `while (*path == PATH_SEP)` loop). -/
def dropSeps (p : String) : String :=
  String.mk (p.toList.dropWhile (fun c => c == '/'))

/-- First path segment: the text up to the next separator or the end. -/
def firstSeg (p : String) : String :=
  String.mk (p.toList.takeWhile (fun c => c != '/'))

/-- Drop a character-count prefix (pointer advance past a segment). -/
def strDrop (p : String) (n : Nat) : String :=
  String.mk (p.toList.drop n)

/-- `strchr(path, PATH_SEP) != NULL`. -/
def strHasSep (p : String) : Bool :=
  p.toList.contains '/'

/-- `split_dir_name`: split at the last separator into (dir, name); a path
without separator yields an empty dir and the path as name. -/
def splitDirNamePair (p : String) : String × String :=
  let cs := p.toList
  if '/' ∈ cs then
    let i := (cs.length - 1) - (cs.reverse.indexOf '/')
    (String.mk (cs.take i), String.mk (cs.drop (i + 1)))
  else ("", p)

/-- Modelled from the spec: `vfs_stamp_create` (in `gc.c`, not among the
sources) registers an idle stamp on a superblock. -/
def stampCreate (sup : Nat) (s : VfsState) : VfsState :=
  if sup ∈ s.stamps then s else { s with stamps := s.stamps ++ [sup] }

/-- Modelled from the spec: `vfs_rmstamp` (in `gc.c`, not among the sources)
removes the idle stamp of a superblock. -/
def rmStamp (sup : Nat) (s : VfsState) : VfsState :=
  { s with stamps := s.stamps.filter (fun x => x ≠ sup) }

/-- `vfs_s_default_stat`: current uid/gid, zeroed device/inode, size 0, all
timestamps "now", mode masked by the process umask (probed and restored). -/
def vfs_s_default_stat (mode : Nat) (s : VfsState) : VStat :=
  { st_dev := 0
    st_ino := 0
    st_mode := mode - Nat.land mode s.umask
    st_nlink := 0
    st_uid := s.uid
    st_gid := s.gid
    st_rdev := 0
    st_size := 0
    st_atime := s.now
    st_mtime := s.now
    st_ctime := s.now }

/-- `vfs_s_new_inode`: fresh inode with `nlink = 0`, a monotonic `st_ino`,
`st_dev` from the class, incremented `ino_usage` and global inode count, and
the optional `init_inode` subclass hook. -/
def vfs_s_new_inode (hooks : Hooks) (supId : Nat) (initstat : Option VStat)
    (s : VfsState) : Nat × VfsState :=
  let id := s.nextId
  let st0 := initstat.getD {}
  let st := { st0 with st_nlink := 0, st_ino := s.inode_counter, st_dev := hooks.rdev }
  let ino : VfsInode := { st := st, superId := supId }
  let s := { s with
    inodes := s.inodes ++ [(id, ino)]
    nextId := id + 1
    inode_counter := s.inode_counter + 1
    total_inodes := s.total_inodes + 1 }
  let s := s.modifySuper supId (fun sp => { sp with ino_usage := sp.ino_usage + 1 })
  let s := if hooks.has_init_inode then s.addEvent (.initInodeHook id) else s
  (id, s)

/-- `vfs_s_new_entry`: fresh entry, name duplicated, inode back-pointer set,
optional `init_entry` hook. -/
def vfs_s_new_entry (hooks : Hooks) (name : String) (inoId : Nat)
    (s : VfsState) : Nat × VfsState :=
  let id := s.nextId
  let ent : VfsEntry := { name := name, ino := inoId }
  let s := { s with
    entries := s.entries ++ [(id, ent)]
    nextId := id + 1
    total_entries := s.total_entries + 1 }
  let s := s.modifyIno inoId (fun ino => { ino with ent := some id })
  let s := if hooks.has_init_entry then s.addEvent (.initEntryHook id) else s
  (id, s)

/-- `vfs_s_insert_entry`: set the parent, bump the inode's `nlink`, and append
to the parent's child list. -/
def vfs_s_insert_entry (dir : Nat) (e : Nat) (s : VfsState) : VfsState :=
  let s := s.modifyEnt e (fun en => { en with dir := some dir })
  let s := match s.lookupEnt e with
    | some en =>
      s.modifyIno en.ino (fun ino =>
        { ino with st := { ino.st with st_nlink := ino.st.st_nlink + 1 } })
    | none => s
  s.modifyIno dir (fun ino => { ino with subdir := ino.subdir ++ [e] })

/-- `vfs_s_generate_entry`: a new entry over a new inode carrying
`default_stat mode`, owned by the parent's superblock. -/
def vfs_s_generate_entry (hooks : Hooks) (name : String) (parent : Nat)
    (mode : Nat) (s : VfsState) : Nat × VfsState :=
  let supId := ((s.lookupIno parent).map (fun x => x.superId)).getD 0
  let st := vfs_s_default_stat mode s
  let (inoId, s) := vfs_s_new_inode hooks supId (some st) s
  vfs_s_new_entry hooks name inoId s

/-- `vfs_s_automake`: truncate the path at the next separator, generate an
entry with mode `0777` (OR `S_IFDIR` when `FL_MKDIR`), and insert it. -/
def vfs_s_automake (hooks : Hooks) (dir : Nat) (path : String) (flags : Flags)
    (s : VfsState) : Nat × VfsState :=
  let name := firstSeg path
  let mode := if flags.mkdir then Nat.lor 0o777 S_IFDIR else 0o777
  let (e, s) := vfs_s_generate_entry hooks name dir mode s
  let s := vfs_s_insert_entry dir e s
  (e, s)

/-- `vfs_s_dir_uptodate`: a set flush flag is consumed and forces "stale";
otherwise the directory is fresh iff "now" is strictly before its timestamp. -/
def vfs_s_dir_uptodate (i : Nat) (s : VfsState) : Bool × VfsState :=
  if s.flush then (false, { s with flush := false })
  else
    match s.lookupIno i with
    | none => (false, s)
    | some ino => (decide (s.now < ino.timestamp), s)

/-- `vfs_s_nothingisopen`: unconditionally reports that nothing is open. -/
def vfs_s_nothingisopen (_id : Nat) : Int := 1

/-- The parent-walk of `vfs_s_fullpath` for archive (tree) classes: climb
`ino->ent->dir` prepending names until the superblock root is reached. -/
def fullpathLoop (s : VfsState) : Nat → Nat → String → Option String
  | 0, _, _ => none
  | fuel + 1, i, path =>
    match s.lookupIno i with
    | none => none
    | some ino =>
      match ino.ent with
      | none => none
      | some e =>
        match (s.lookupEnt e).bind (fun x => x.dir) with
        | none => none
        | some d =>
          match s.lookupIno d with
          | none => none
          | some dino =>
            if ((s.lookupSuper dino.superId).bind (fun x => x.root)) = some d then
              some path
            else
              match dino.ent with
              | none => none
              | some de =>
                match s.lookupEnt de with
                | none => none
                | some dent => fullpathLoop s fuel d (dent.name ++ "/" ++ path)

/-- `vfs_s_fullpath`: fails with `EAGAIN` for an inode without a naming entry;
archive classes climb the tree, remote classes concatenate at most the parent
directory's name with the entry name. -/
def vfs_s_fullpath (hooks : Hooks) (fuel : Nat) (i : Nat) (s : VfsState) :
    Option String × VfsState :=
  match s.lookupIno i with
  | none => (none, s)
  | some ino =>
    match ino.ent with
    | none => (none, s.setErrno EAGAIN)
    | some e =>
      match s.lookupEnt e with
      | none => (none, s)
      | some ent =>
        if ¬ hooks.remote then
          (fullpathLoop s fuel i ent.name, s)
        else
          match ent.dir with
          | none => (some ent.name, s)
          | some d =>
            match (s.lookupIno d).bind (fun x => x.ent) with
            | none => (some ent.name, s)
            | some de =>
              match s.lookupEnt de with
              | none => (none, s)
              | some dent => (some (dent.name ++ "/" ++ ent.name), s)

/-- Rebase of a symlink target inside `vfs_s_resolve_symlink`: a relative
target is prefixed with `fullpath(entry->dir)` and a separator when that full
path is computable; an absolute target is kept as is. -/
def rebaseLink (hooks : Hooks) (d : Nat) (link : String) (s : VfsState) :
    String × VfsState :=
  if startsWithSep link then (link, s)
  else
    match vfs_s_fullpath hooks (s.inodes.length + 1) d s with
    | (some fp, s1) => (fp ++ "/" ++ link, s1)
    | (none, s1) => (link, s1)

mutual

/-- `vfs_s_free_inode`: an inode with `nlink > 1` is only unreferenced;
otherwise its children are freed, the subclass hook runs, the local copy is
unlinked from the host, the counters drop, and the inode is deallocated. -/
def vfs_s_free_inode (hooks : Hooks) : Nat → Nat → VfsState → VfsState
  | 0, _, s => s
  | fuel + 1, i, s =>
    match s.lookupIno i with
    | none => s
    | some ino =>
      if ino.st.st_nlink > 1 then
        s.setIno i { ino with st := { ino.st with st_nlink := ino.st.st_nlink - 1 } }
      else
        let s := freeSubdirLoop hooks fuel i s
        match s.lookupIno i with
        | none => s
        | some ino2 =>
          let s := if hooks.has_free_inode then s.addEvent (.freeInodeHook i) else s
          let s := match ino2.localname with
            | some l => s.addEvent (.unlinkHost l)
            | none => s
          let s := { s with total_inodes := s.total_inodes - 1 }
          let s := s.modifySuper ino2.superId
            (fun sp => { sp with ino_usage := sp.ino_usage - 1 })
          { s with inodes := removeA s.inodes i }
  termination_by structural fuel => fuel

/-- The `while (ino->subdir != NULL)` loop of `vfs_s_free_inode`. -/
def freeSubdirLoop (hooks : Hooks) : Nat → Nat → VfsState → VfsState
  | 0, _, s => s
  | fuel + 1, i, s =>
    match s.lookupIno i with
    | none => s
    | some ino =>
      match ino.subdir with
      | [] => s
      | e :: _ => freeSubdirLoop hooks fuel i (vfs_s_free_entry hooks fuel e s)
  termination_by structural fuel => fuel

/-- `vfs_s_free_entry`: detach from the parent's child list, clear the inode's
back-pointer, release one `nlink` via `free_inode`, deallocate the entry. -/
def vfs_s_free_entry (hooks : Hooks) : Nat → Nat → VfsState → VfsState
  | 0, _, s => s
  | fuel + 1, e, s =>
    match s.lookupEnt e with
    | none => s
    | some ent =>
      let s := match ent.dir with
        | some d => s.modifyIno d (fun ino => { ino with subdir := removeFirst ino.subdir e })
        | none => s
      let s := s.modifyIno ent.ino (fun ino => { ino with ent := none })
      let s := vfs_s_free_inode hooks fuel ent.ino s
      { s with total_entries := s.total_entries - 1, entries := removeA s.entries e }
  termination_by structural fuel => fuel

/-- `vfs_s_resolve_symlink`: `LINK_NO_FOLLOW` and non-symlinks pass through;
an exhausted budget is `ELOOP`; a missing entry is `ENOENT`; a symlink without
target is `EFAULT`; otherwise rebase a relative target under
`fullpath(entry->dir)` and re-resolve from the superblock root with one hop
less through the class-bound `find_entry`. -/
def vfs_s_resolve_symlink (hooks : Hooks) :
    Nat → Option Nat → Int → VfsState → Option Nat × VfsState
  | 0, _, _, s => (none, s)
  | fuel + 1, entry, follow, s =>
    if follow = LINK_NO_FOLLOW then (entry, s)
    else if follow = 0 then (none, s.setErrno ELOOP)
    else
      match entry with
      | none => (none, s.setErrno ENOENT)
      | some e =>
        match s.lookupEnt e with
        | none => (none, s)
        | some ent =>
          match s.lookupIno ent.ino with
          | none => (none, s)
          | some ino =>
            if ¬ S_ISLNK ino.st.st_mode then (some e, s)
            else
              match ino.linkname with
              | none => (none, s.setErrno EFAULT)
              | some link =>
                match ent.dir with
                | none => (none, s)
                | some d =>
                  match rebaseLink hooks d link s with
                  | (link2, s2) =>
                    match s2.lookupIno d with
                    | none => (none, s2)
                    | some dino =>
                      match (s2.lookupSuper dino.superId).bind (fun x => x.root) with
                      | none => (none, s2)
                      | some rt =>
                        findEntryDispatch hooks fuel (some rt) link2 (follow - 1) {} s2
  termination_by structural fuel => fuel

/-- The class-bound `MEDATA->find_entry`: `vfs_s_init_class` installs the
linear resolver for `VFS_S_REMOTE` subclasses and the tree resolver else. -/
def findEntryDispatch (hooks : Hooks) :
    Nat → Option Nat → String → Int → Flags → VfsState → Option Nat × VfsState
  | 0, _, _, _, _, s => (none, s)
  | fuel + 1, root, path, follow, flags, s =>
    if hooks.remote then
      match root with
      | some r => vfs_s_find_entry_linear hooks fuel r path follow flags s
      | none => (none, s)
    else vfs_s_find_entry_tree hooks fuel root path follow flags s
  termination_by structural fuel => fuel

/-- `vfs_s_find_entry_tree`: canonicalize (keeping `..`), then walk. -/
def vfs_s_find_entry_tree (hooks : Hooks) :
    Nat → Option Nat → String → Int → Flags → VfsState → Option Nat × VfsState
  | 0, _, _, _, _, s => (none, s)
  | fuel + 1, root, a_path, follow, flags, s =>
    findEntryTreeLoop hooks fuel root none (canonicalize a_path) follow flags s
  termination_by structural fuel => fuel

/-- The `while (root != NULL)` walk of `vfs_s_find_entry_tree`: strip leading
separators; an exhausted path returns the accumulated entry; scan the child
list for the next segment; auto-create under `FL_MKFILE | FL_MKDIR`; a missing
segment is `ENOENT`; then follow symlinks and descend. -/
def findEntryTreeLoop (hooks : Hooks) :
    Nat → Option Nat → Option Nat → String → Int → Flags → VfsState →
    Option Nat × VfsState
  | 0, _, _, _, _, _, s => (none, s)
  | fuel + 1, root, acc, path0, follow, flags, s =>
    match root with
    | none => (none, s)
    | some r =>
      let path := dropSeps path0
      if path = "" then (acc, s)
      else
        match s.lookupIno r with
        | none => (none, s)
        | some rino =>
          let seg := firstSeg path
          let found := rino.subdir.find? (fun e => entName s e == some seg)
          let r2 :=
            match found with
            | some e => (some e, s)
            | none =>
              if flags.mkfile ∨ flags.mkdir then
                match vfs_s_automake hooks r path flags s with
                | (e, s1) => (some e, s1)
              else (none, s)
          match r2 with
          | (none, s1) => (none, s1.setErrno ENOENT)
          | (some e, s1) =>
            feTreeAfterFound hooks fuel e (strDrop path seg.length) follow flags s1
  termination_by structural fuel => fuel

/-- Tail of one tree-walk iteration, after the segment's entry is known:
intermediate components are followed with the full `LINK_FOLLOW` budget, the
final component with the caller's budget; then descend into the inode. -/
def feTreeAfterFound (hooks : Hooks) :
    Nat → Nat → String → Int → Flags → VfsState → Option Nat × VfsState
  | 0, _, _, _, _, s => (none, s)
  | fuel + 1, e, rest, follow, flags, s =>
    let fl := if strHasSep rest then LINK_FOLLOW else follow
    match vfs_s_resolve_symlink hooks fuel (some e) fl s with
    | (none, s1) => (none, s1)
    | (some e2, s1) =>
      match s1.lookupEnt e2 with
      | none => (none, s1)
      | some en2 => findEntryTreeLoop hooks fuel (some en2.ino) (some e2) rest follow flags s1
  termination_by structural fuel => fuel

/-- `vfs_s_find_entry_linear`: non-`FL_DIR` lookups split off the basename and
delegate to the tree resolver under the resolved directory; `FL_DIR` lookups
hit the flat cache keyed by the full canonical path, dropping entries whose
`dir_uptodate` fails and (re)loading missing directories via `dir_load`. -/
def vfs_s_find_entry_linear (hooks : Hooks) :
    Nat → Nat → String → Int → Flags → VfsState → Option Nat × VfsState
  | 0, _, _, _, _, s => (none, s)
  | fuel + 1, r, a_path, follow, flags, s =>
    match s.lookupIno r with
    | none => (none, s)
    | some rino =>
      if ((s.lookupSuper rino.superId).bind (fun x => x.root)) ≠ some r then (none, s)
      else
        let path := canonicalize a_path
        if ¬ flags.dir then
          match splitDirNamePair path with
          | (dirname, name) =>
            match vfs_s_find_inode hooks fuel rino.superId dirname follow
                { flags with dir := true } s with
            | (ino, s1) => vfs_s_find_entry_tree hooks fuel ino name follow flags s1
        else
          let found := rino.subdir.find? (fun e => entName s e == some path)
          let r2 :=
            match found with
            | some e =>
              match s.lookupEnt e with
              | none => (some e, s)
              | some en =>
                match vfs_s_dir_uptodate en.ino s with
                | (true, s1) => (some e, s1)
                | (false, s1) =>
                  let s2 := s1.addEvent (.message ("Directory cache expired for " ++ path))
                  (none, vfs_s_free_entry hooks fuel e s2)
            | none => (none, s)
          match r2 with
          | (some e, s1) => (some e, s1)
          | (none, s1) => linearMissLoad hooks fuel r path s1
  termination_by structural fuel => fuel

/-- The miss path of the linear resolver: fresh directory inode from
`default_stat(S_IFDIR|0755)`, entry named by the full path, `dir_load`; on
failure free the entry and fail, else insert into the fake flat root and
re-locate the entry by name. -/
def linearMissLoad (hooks : Hooks) :
    Nat → Nat → String → VfsState → Option Nat × VfsState
  | 0, _, _, s => (none, s)
  | fuel + 1, r, path, s =>
    match s.lookupIno r with
    | none => (none, s)
    | some rino =>
      let st := vfs_s_default_stat (Nat.lor S_IFDIR 0o755) s
      match vfs_s_new_inode hooks rino.superId (some st) s with
      | (inoId, s1) =>
        match vfs_s_new_entry hooks path inoId s1 with
        | (entId, s2) =>
          let s3 := s2.addEvent (.dirLoadCall inoId path)
          if ¬ hooks.dir_load_ok path then
            (none, vfs_s_free_entry hooks fuel entId s3)
          else
            let s4 := vfs_s_insert_entry r entId s3
            match s4.lookupIno r with
            | none => (none, s4)
            | some rino2 =>
              match rino2.subdir.find? (fun e => entName s4 e == some path) with
              | some e => (some e, s4)
              | none => (none, s4)

/-- `vfs_s_find_inode`: non-remote classes answer the empty path with the
superblock root directly; otherwise the class-bound `find_entry` runs and the
entry's inode is returned. -/
def vfs_s_find_inode (hooks : Hooks) :
    Nat → Nat → String → Int → Flags → VfsState → Option Nat × VfsState
  | 0, _, _, _, _, s => (none, s)
  | fuel + 1, supId, path, follow, flags, s =>
    match s.lookupSuper supId with
    | none => (none, s)
    | some sp =>
      if ¬ hooks.remote ∧ path = "" then (sp.root, s)
      else
        match findEntryDispatch hooks fuel sp.root path follow flags s with
        | (none, s1) => (none, s1)
        | (some e, s1) => ((s1.lookupEnt e).map (fun x => x.ino), s1)
  termination_by structural fuel => fuel

end

/-- The superblock scan of `vfs_s_get_path_mangle`: `archive_same` returns
0 (different — keep scanning), 1 (match — use this super) or 2 (different —
stop scanning). -/
def scanSupers (hooks : Hooks) : List Nat → String → Option Nat
  | [], _ => none
  | sup :: rest, an =>
    let i := hooks.archive_same sup an
    if i = 1 then some sup
    else if i = 0 then scanSupers hooks rest an
    else none

/-- `vfs_s_free_super`: free the root inode if set, drop the super from the
class list, run the `free_archive` hook, deallocate. -/
def vfs_s_free_super (hooks : Hooks) (fuel : Nat) (supId : Nat) (s : VfsState) :
    VfsState :=
  match s.lookupSuper supId with
  | none => s
  | some sp =>
    let s := match sp.root with
      | some r =>
        (vfs_s_free_inode hooks fuel r s).modifySuper supId
          (fun x => { x with root := none })
      | none => s
    let s := { s with superList := removeFirst s.superList supId }
    let s := if hooks.has_free_archive then s.addEvent (.freeArchiveHook supId) else s
    { s with supers := removeA s.supers supId }

/-- `vfs_s_get_path_mangle`: dissect the input, optionally `archive_check`,
scan the superblock list, and otherwise (unless `FL_NO_OPEN`, which is `EIO`)
allocate and open a fresh superblock.  `open_archive` is an oracle; per its
contract a success populates `super->name` and `super->root`, modelled here as
a fresh default directory root inode. -/
def vfs_s_get_path_mangle (hooks : Hooks) (fuel : Nat) (inname : String)
    (noOpen : Bool) (s : VfsState) : Option (Nat × String) × VfsState :=
  match hooks.split inname with
  | (archive_name, localPart, _op) =>
    let retval := localPart.getD ""
    if hooks.has_archive_check ∧ ¬ hooks.archive_check_ok archive_name then (none, s)
    else
      match scanSupers hooks s.superList archive_name with
      | some sup => (some (sup, retval), s)
      | none =>
        if noOpen then (none, s.setErrno EIOnum)
        else
          let supId := s.nextId
          let s := { s with supers := s.supers ++ [(supId, {})], nextId := supId + 1 }
          match hooks.open_archive archive_name with
          | none => (none, (vfs_s_free_super hooks fuel supId s).setErrno EIOnum)
          | some sname =>
            let st := vfs_s_default_stat (Nat.lor S_IFDIR 0o755) s
            match vfs_s_new_inode hooks supId (some st) s with
            | (rootId, s) =>
              let s := s.modifySuper supId
                (fun sp => { sp with name := some sname, root := some rootId })
              let s := { s with superList := supId :: s.superList }
              (some (supId, retval), stampCreate supId s)

/-- `vfs_s_get_path`: the copying wrapper over `get_path_mangle`. -/
def vfs_s_get_path (hooks : Hooks) (fuel : Nat) (inname : String) (noOpen : Bool)
    (s : VfsState) : Option (Nat × String) × VfsState :=
  vfs_s_get_path_mangle hooks fuel inname noOpen s

/-- `vfs_s_invalidate`: unless the super wants stale data, free its root and
install a fresh empty directory root. -/
def vfs_s_invalidate (hooks : Hooks) (fuel : Nat) (sup : Nat) (s : VfsState) :
    VfsState :=
  match s.lookupSuper sup with
  | none => s
  | some sp =>
    if sp.want_stale then s
    else
      let s := match sp.root with
        | some r => vfs_s_free_inode hooks fuel r s
        | none => s
      let st := vfs_s_default_stat (Nat.lor S_IFDIR 0o755) s
      match vfs_s_new_inode hooks sup (some st) s with
      | (rootId, s) => s.modifySuper sup (fun x => { x with root := some rootId })

/-- `vfs_s_inode_from_path`: dissect, resolve; an empty path that resolves to
nothing is retried with `FL_DIR` (the "/ always exists on ftp" rule). -/
def vfs_s_inode_from_path (hooks : Hooks) (fuel : Nat) (name : String)
    (flags : Flags) (s : VfsState) : Option Nat × VfsState :=
  match vfs_s_get_path hooks fuel name false s with
  | (none, s) => (none, s)
  | (some (sup, q), s) =>
    let fol := if flags.follow then LINK_FOLLOW else LINK_NO_FOLLOW
    let fl1 := { flags with follow := false }
    match vfs_s_find_inode hooks fuel sup q fol fl1 s with
    | (some i, s1) => (some i, s1)
    | (none, s1) =>
      if q = "" then vfs_s_find_inode hooks fuel sup q fol { fl1 with dir := true } s1
      else (none, s1)

/-- `vfs_s_opendir`: resolve with `FL_DIR | FL_FOLLOW`, require a directory
(`ENOTDIR`), take an `nlink` hold, return a cursor on the first child. -/
def vfs_s_opendir (hooks : Hooks) (fuel : Nat) (dirname : String) (s : VfsState) :
    Option DirH × VfsState :=
  match vfs_s_inode_from_path hooks fuel dirname { dir := true, follow := true } s with
  | (none, s) => (none, s)
  | (some d, s) =>
    match s.lookupIno d with
    | none => (none, s)
    | some ino =>
      if ¬ S_ISDIR ino.st.st_mode then (none, s.setErrno ENOTDIR)
      else
        let s := s.modifyIno d (fun x =>
          { x with st := { x.st with st_nlink := x.st.st_nlink + 1 } })
        (some { cur := ino.subdir, dir := d }, s)

/-- `vfs_s_closedir`: release the hold via `free_inode`, free the cursor. -/
def vfs_s_closedir (hooks : Hooks) (fuel : Nat) (h : DirH) (s : VfsState) :
    Int × VfsState :=
  (0, vfs_s_free_inode hooks fuel h.dir s)

/-- Final success steps of `vfs_s_open`: drop the super's idle stamp, bump
`fd_usage` and the inode's `nlink`, hand out the handle. -/
def vfs_s_open_fin (sup i : Nat) (fh : Fh) (s : VfsState) : Option Fh × VfsState :=
  let s := rmStamp sup s
  let s := s.modifySuper sup (fun x => { x with fd_usage := x.fd_usage + 1 })
  let s := s.modifyIno i (fun x =>
    { x with st := { x.st with st_nlink := x.st.st_nlink + 1 } })
  (some fh, s)

/-- `vfs_s_open` after the inode is determined: directories are `EISDIR`;
build the handle; linear mode or `fh_open`; open the local copy if any. -/
def vfs_s_open_post (hooks : Hooks) (sup i : Nat) (wasChanged : Bool)
    (oflags : OFlags) (s : VfsState) : Option Fh × VfsState :=
  match s.lookupIno i with
  | none => (none, s)
  | some ino =>
    if S_ISDIR ino.st.st_mode then (none, s.setErrno EISDIR)
    else
      let fh : Fh := { ino := i, changed := wasChanged }
      let r1 : Option Fh × VfsState :=
        if oflags.linear ∧ hooks.has_linear_start then
          (some { fh with linear := .preopen },
           s.addEvent (.message "Starting linear transfer..."))
        else if hooks.has_fh_open then
          let s := s.addEvent .fhOpenCall
          if hooks.fh_open_ok then (some fh, s) else (none, s)
        else (some fh, s)
      match r1 with
      | (none, s1) => (none, s1)
      | (some fh1, s1) =>
        match ino.localname with
        | some l =>
          match hooks.host_open l with
          | none => (none, s1.setErrno hooks.host_errno)
          | some fd => vfs_s_open_fin sup i { fh1 with handle := fd } s1
        | none => vfs_s_open_fin sup i fh1 s1

/-- `vfs_s_open`: resolve; `EEXIST` under `O_CREAT|O_EXCL`; silently refuse
creation without `O_CREAT` or on a read-only class; otherwise create the
entry under the parent directory with mode `0755` plus a host temp file. -/
def vfs_s_open (hooks : Hooks) (fuel : Nat) (file : String) (oflags : OFlags)
    (s : VfsState) : Option Fh × VfsState :=
  match vfs_s_get_path hooks fuel file false s with
  | (none, s) => (none, s)
  | (some (sup, q), s) =>
    match vfs_s_find_inode hooks fuel sup q LINK_FOLLOW {} s with
    | (some i, s) =>
      if oflags.creat ∧ oflags.excl then (none, s.setErrno EEXIST)
      else vfs_s_open_post hooks sup i false oflags s
    | (none, s) =>
      if ¬ oflags.creat ∨ ¬ hooks.writable then (none, s)
      else
        match splitDirNamePair q with
        | (dirname, name) =>
          match vfs_s_find_inode hooks fuel sup dirname LINK_FOLLOW { dir := true } s with
          | (none, s) => (none, s)
          | (some d, s) =>
            match vfs_s_generate_entry hooks name d 0o755 s with
            | (entId, s) =>
              let inoId := ((s.lookupEnt entId).map (fun x => x.ino)).getD 0
              let s := vfs_s_insert_entry d entId s
              match hooks.mkstemps s.nextId with
              | none => (none, s)
              | some tmp =>
                let s := s.modifyIno inoId (fun x => { x with localname := some tmp })
                let s := s.addEvent (.tmpFile tmp)
                vfs_s_open_post hooks sup inoId true oflags s

/-- `vfs_s_close`: drop `fd_usage` (stamping the super at zero), close linear
transfers, run `fh_close`, store back a changed file and invalidate, close the
host descriptor, release the inode hold. -/
def vfs_s_close (hooks : Hooks) (fuel : Nat) (fh : Fh) (s : VfsState) :
    Int × VfsState :=
  match s.lookupIno fh.ino with
  | none => (0, s)
  | some ino =>
    match s.lookupSuper ino.superId with
    | none => (0, s)
    | some spRec =>
      let sup := ino.superId
      let fdNew := spRec.fd_usage - 1
      let s := s.modifySuper sup (fun x => { x with fd_usage := fdNew })
      let s := if fdNew = 0 then stampCreate sup s else s
      let s := if fh.linear = .lopen then s.addEvent .linearCloseCall else s
      let res : Int := if hooks.has_fh_close then hooks.fh_close_res else 0
      let s := if hooks.has_fh_close then s.addEvent .fhCloseCall else s
      let r1 : Int × VfsState :=
        if fh.changed ∧ hooks.has_file_store then
          match vfs_s_fullpath hooks (s.inodes.length + 1) fh.ino s with
          | (none, s1) => (-1, vfs_s_invalidate hooks fuel sup s1)
          | (some p, s1) =>
            let s2 := s1.addEvent (.fileStoreCall p ino.localname)
            ((if hooks.file_store_ok then 0 else -1),
             vfs_s_invalidate hooks fuel sup s2)
        else (res, s)
      match r1 with
      | (res2, s1) =>
        let s2 := if fh.handle ≠ -1 then s1.addEvent (.hostClose fh.handle) else s1
        (res2, vfs_s_free_inode hooks fuel fh.ino s2)

/-- `setctl` operations the core implements. -/
inductive Ctl where
  | staleData (sticky : Bool)
  | logfile (path : String)
  | flushCtl
  deriving DecidableEq

/-- `vfs_s_setctl`: `STALE_DATA` toggles `want_stale` (clearing invalidates),
`LOGFILE` opens the wire log, `FLUSH` arms the one-shot flush flag. -/
def vfs_s_setctl (hooks : Hooks) (fuel : Nat) (path : String) (ctl : Ctl)
    (s : VfsState) : Int × VfsState :=
  match ctl with
  | .staleData sticky =>
    match vfs_s_inode_from_path hooks fuel path {} s with
    | (none, s) => (0, s)
    | (some i, s) =>
      match s.lookupIno i with
      | none => (0, s)
      | some ino =>
        if sticky then (1, s.modifySuper ino.superId (fun x => { x with want_stale := true }))
        else
          let s := s.modifySuper ino.superId (fun x => { x with want_stale := false })
          (1, vfs_s_invalidate hooks fuel ino.superId s)
  | .logfile p => (1, s.addEvent (.logfileOpened p))
  | .flushCtl => (1, { s with flush := true })

/-- The operation table that `vfs_s_init_class` installs on a class.  Function
pointers that the claims inspect are kept as functions; for the rest only
their presence (installed or not) is recorded. -/
structure VfsClassTable where
  write_installed : Bool
  getlocalcopy_installed : Bool
  ungetlocalcopy_installed : Bool
  find_entry_is_linear : Bool
  nothingisopen : Nat → Int
  dir_uptodate_is_core : Bool

/-- `vfs_s_init_class`: the universal method table; `write` only for
non-read-only subclasses; the linear resolver and local-copy helpers only for
`VFS_S_REMOTE` subclasses; `dir_uptodate` is always the core's. -/
def vfs_s_init_class (readonly remote : Bool) : VfsClassTable :=
  { write_installed := ¬ readonly
    getlocalcopy_installed := remote
    ungetlocalcopy_installed := remote
    find_entry_is_linear := remote
    nothingisopen := vfs_s_nothingisopen
    dir_uptodate_is_core := true }

/-! Witness scenarios: small concrete heaps used to instantiate the
theorems below on closed inputs. -/

def hooksTree : Hooks := { archive_same := fun sup _ => if sup = 100 then 1 else 0 }

def wFileIno : VfsInode := { st := { st_mode := 0o100644, st_nlink := 1 }, superId := 100 }

def wRootIno : VfsInode := { st := { st_mode := 0o040755, st_nlink := 1 }, superId := 100, subdir := [10] }

def wFileEnt : VfsEntry := { name := "f", dir := some 0, ino := 1 }

def wSuper : VfsSuper := { name := some "arch", root := some 0, ino_usage := 2, fd_usage := 0 }

def wState : VfsState :=
  { inodes := [(0, wRootIno), (1, wFileIno)], entries := [(10, wFileEnt)],
    supers := [(100, wSuper)], superList := [100], nextId := 11 }

def hooks0 : Hooks := {}

def wMulti : VfsInode := { st := { st_mode := 0o100644, st_nlink := 3 }, superId := 100 }

def wMultiS : VfsState := { inodes := [(1, wMulti)], supers := [(100, wSuper)], nextId := 2 }

/-- Well-formedness of one child slot of a directory freed in the
last-reference case: the entry exists and points back at the directory, and
its inode is live, childless, on superblock `su`, holding only the one
reference the entry owns. -/
def childGone (s : VfsState) (i su : Nat) (p : Nat × Nat) : Prop :=
  ∃ en inoC, s.lookupEnt p.1 = some en ∧ en.dir = some i ∧ en.ino = p.2 ∧
    s.lookupIno p.2 = some inoC ∧ inoC.st.st_nlink ≤ 1 ∧ inoC.subdir = [] ∧
    inoC.superId = su ∧ p.2 ≠ i

/-- Observable external effects of freeing one child inode. -/
def childEvs (hooks : Hooks) (s : VfsState) (p : Nat × Nat) : List VfsEvent :=
  (if hooks.has_free_inode then [VfsEvent.freeInodeHook p.2] else []) ++
  (match (s.lookupIno p.2).bind (fun x => x.localname) with
   | some l => [VfsEvent.unlinkHost l]
   | none => [])

/-- The deallocation tail of `vfs_s_free_inode` once the subdir loop is done:
subclass hook, host unlink of a set localname, counter drops, removal from
the heap. -/
def freeFin (hooks : Hooks) (i : Nat) (ino : VfsInode) (s : VfsState) : VfsState :=
  let s1 := if hooks.has_free_inode then s.addEvent (.freeInodeHook i) else s
  let s2 := match ino.localname with
    | some l => s1.addEvent (.unlinkHost l)
    | none => s1
  let s3 := { s2 with total_inodes := s2.total_inodes - 1 }
  let s4 := s3.modifySuper ino.superId
    (fun sp => { sp with ino_usage := sp.ino_usage - 1 })
  { s4 with inodes := removeA s4.inodes i }

def hooksRem : Hooks := { hooksTree with remote := true }

def wPubIno : VfsInode :=
  { st := { st_mode := 0o040755, st_nlink := 1 }, superId := 100, ent := some 12,
    timestamp := 5 }

def wPubEnt : VfsEntry := { name := "pub", dir := some 0, ino := 2 }

def wStaleS : VfsState :=
  { inodes := [(0, { wRootIno with subdir := [12] }), (2, wPubIno)],
    entries := [(12, wPubEnt)], supers := [(100, wSuper)], superList := [100],
    nextId := 13, now := 9 }

def wLoopRoot : VfsInode :=
  { st := { st_mode := 0o040755, st_nlink := 1 }, superId := 100, subdir := [11] }

def wLinkIno : VfsInode :=
  { st := { st_mode := 0o120777, st_nlink := 1 }, superId := 100,
    linkname := some "loop", ent := some 11 }

def wLinkEnt : VfsEntry := { name := "loop", dir := some 0, ino := 2 }

def wLoopS : VfsState :=
  { inodes := [(0, wLoopRoot), (2, wLinkIno)], entries := [(11, wLinkEnt)],
    supers := [(100, wSuper)], superList := [100], nextId := 12 }

def mkLoopState (v : Nat) : VfsState := { wLoopS with verrno := v }

/-- Hooks for the open/close witness: the only superblock matches. -/
def hooksC7 : Hooks := { archive_same := fun _ _ => 1 }

def wOpenIno : VfsInode := { st := { st_mode := S_IFREG, st_nlink := 1 }, superId := 0 }

def wOpenSp : VfsSuper := { root := some 10 }

def wOpenS : VfsState :=
  { inodes := [(10, wOpenIno)], supers := [(0, wOpenSp)], superList := [0], nextId := 11 }

def wNoRootSp : VfsSuper := {}

def wNoRootS : VfsState := { supers := [(0, wNoRootSp)], superList := [0], nextId := 11 }

def wDirIno : VfsInode := { st := { st_mode := S_IFDIR, st_nlink := 1 }, superId := 0 }

def wDirS : VfsState :=
  { inodes := [(10, wDirIno)], supers := [(0, wOpenSp)], superList := [0], nextId := 11 }

/-! Helper lemmas shared by the claim theorems. -/

theorem lookupA_cons {α : Type} (p : Nat × α) (l : List (Nat × α)) (k : Nat) :
    lookupA (p :: l) k = if p.1 = k then some p.2 else lookupA l k := by
  by_cases h : p.1 = k
  · simp [lookupA, List.find?, beq_iff_eq, h]
  · have hb : (p.1 == k) = false := by simpa using h
    simp [lookupA, List.find?, hb, h]

theorem modifyA_cons {α : Type} (p : Nat × α) (l : List (Nat × α)) (k : Nat) (f : α → α) :
    modifyA (p :: l) k f = (if p.1 = k then (k, f p.2) else p) :: modifyA l k f := by
  by_cases h : p.1 = k <;> simp [modifyA, h]

theorem updateA_cons {α : Type} (p : Nat × α) (l : List (Nat × α)) (k : Nat) (v : α) :
    updateA (p :: l) k v = (if p.1 = k then (k, v) else p) :: updateA l k v := by
  by_cases h : p.1 = k <;> simp [updateA, h]

theorem removeA_cons {α : Type} (p : Nat × α) (l : List (Nat × α)) (k : Nat) :
    removeA (p :: l) k = if p.1 = k then removeA l k else p :: removeA l k := by
  by_cases h : p.1 = k
  · have hb : (p.1 != k) = false := by simpa using h
    simp [removeA, List.filter, hb, h]
  · have hb : (p.1 != k) = true := by simpa using h
    simp [removeA, List.filter, hb, h]

theorem lookupA_modifyA_self {α : Type} (l : List (Nat × α)) (k : Nat) (f : α → α) :
    lookupA (modifyA l k f) k = (lookupA l k).map f := by
  induction l with
  | nil => rfl
  | cons p t ih =>
    by_cases h : p.1 = k <;> simp [modifyA_cons, lookupA_cons, h, ih]

theorem lookupA_modifyA_ne {α : Type} (l : List (Nat × α)) (j k : Nat) (f : α → α)
    (h : j ≠ k) : lookupA (modifyA l k f) j = lookupA l j := by
  induction l with
  | nil => rfl
  | cons p t ih =>
    by_cases hp : p.1 = k
    · have : ¬ (k = j) := fun hh => h hh.symm
      simp [modifyA_cons, lookupA_cons, hp, this, ih]
    · simp [modifyA_cons, lookupA_cons, hp, ih]

theorem lookupA_updateA_self {α : Type} (l : List (Nat × α)) (k : Nat) (v : α) :
    lookupA (updateA l k v) k = (lookupA l k).map (fun _ => v) := by
  induction l with
  | nil => rfl
  | cons p t ih =>
    by_cases h : p.1 = k <;> simp [updateA_cons, lookupA_cons, h, ih]

theorem lookupA_updateA_ne {α : Type} (l : List (Nat × α)) (j k : Nat) (v : α)
    (h : j ≠ k) : lookupA (updateA l k v) j = lookupA l j := by
  induction l with
  | nil => rfl
  | cons p t ih =>
    by_cases hp : p.1 = k
    · have : ¬ (k = j) := fun hh => h hh.symm
      simp [updateA_cons, lookupA_cons, hp, this, ih]
    · simp [updateA_cons, lookupA_cons, hp, ih]

theorem lookupA_removeA_self {α : Type} (l : List (Nat × α)) (k : Nat) :
    lookupA (removeA l k) k = none := by
  induction l with
  | nil => rfl
  | cons p t ih =>
    by_cases h : p.1 = k <;> simp [removeA_cons, lookupA_cons, h, ih]

theorem lookupA_removeA_ne {α : Type} (l : List (Nat × α)) (j k : Nat) (h : j ≠ k) :
    lookupA (removeA l k) j = lookupA l j := by
  induction l with
  | nil => rfl
  | cons p t ih =>
    by_cases hp : p.1 = k
    · have hkj : ¬ (k = j) := fun hh => h hh.symm
      simp [removeA_cons, lookupA_cons, hp, hkj, ih]
    · simp [removeA_cons, lookupA_cons, hp, ih]

theorem lookupA_append {α : Type} (l m : List (Nat × α)) (k : Nat) :
    lookupA (l ++ m) k = ((lookupA l k).or (lookupA m k)) := by
  induction l with
  | nil => rfl
  | cons p t ih =>
    by_cases h : p.1 = k <;> simp [lookupA_cons, h, ih]

theorem removeFirst_cons_self (e : Nat) (l : List Nat) : removeFirst (e :: l) e = l := by
  simp [removeFirst]

theorem lookupIno_modifyIno_self (s : VfsState) (i : Nat) (f : VfsInode → VfsInode) :
    (s.modifyIno i f).lookupIno i = (s.lookupIno i).map f :=
  lookupA_modifyA_self s.inodes i f

theorem lookupIno_modifyIno_ne (s : VfsState) (j i : Nat) (f : VfsInode → VfsInode)
    (h : j ≠ i) : (s.modifyIno i f).lookupIno j = s.lookupIno j :=
  lookupA_modifyA_ne s.inodes j i f h

theorem lookupIno_setIno_ne (s : VfsState) (j i : Nat) (v : VfsInode)
    (h : j ≠ i) : (s.setIno i v).lookupIno j = s.lookupIno j :=
  lookupA_updateA_ne s.inodes j i v h

theorem free_inode_decr (hooks : Hooks) (n i : Nat) (s : VfsState) (ino : VfsInode)
    (hi : s.lookupIno i = some ino) (hn : 1 < ino.st.st_nlink) :
    vfs_s_free_inode hooks (n + 1) i s =
      s.setIno i { ino with st := { ino.st with st_nlink := ino.st.st_nlink - 1 } } := by
  simp only [vfs_s_free_inode, hi]
  rw [if_pos hn]

theorem free_entry_unfold (hooks : Hooks) (n e d : Nat) (s : VfsState) (ent : VfsEntry)
    (he : s.lookupEnt e = some ent) (hd : ent.dir = some d) :
    vfs_s_free_entry hooks (n + 1) e s =
      { vfs_s_free_inode hooks n ent.ino
          ((s.modifyIno d
            (fun ino => { ino with subdir := removeFirst ino.subdir e })).modifyIno
            ent.ino (fun ino => { ino with ent := none })) with
        total_entries := (vfs_s_free_inode hooks n ent.ino
          ((s.modifyIno d
            (fun ino => { ino with subdir := removeFirst ino.subdir e })).modifyIno
            ent.ino (fun ino => { ino with ent := none }))).total_entries - 1,
        entries := removeA (vfs_s_free_inode hooks n ent.ino
          ((s.modifyIno d
            (fun ino => { ino with subdir := removeFirst ino.subdir e })).modifyIno
            ent.ino (fun ino => { ino with ent := none }))).entries e } := by
  simp only [vfs_s_free_entry, he, hd]

theorem freeSubdirLoop_nil (hooks : Hooks) (n i : Nat) (s : VfsState) (ino : VfsInode)
    (hi : s.lookupIno i = some ino) (hs : ino.subdir = []) :
    freeSubdirLoop hooks n i s = s := by
  cases n with
  | zero => rfl
  | succ m => simp only [freeSubdirLoop, hi, hs]

theorem freeSubdirLoop_cons (hooks : Hooks) (n i : Nat) (s : VfsState) (ino : VfsInode)
    (e : Nat) (rest : List Nat) (hi : s.lookupIno i = some ino)
    (hs : ino.subdir = e :: rest) :
    freeSubdirLoop hooks (n + 1) i s =
      freeSubdirLoop hooks n i (vfs_s_free_entry hooks n e s) := by
  simp only [freeSubdirLoop, hi, hs]

theorem free_inode_dealloc (hooks : Hooks) (n i : Nat) (s : VfsState) (ino : VfsInode)
    (hi : s.lookupIno i = some ino) (hn : ino.st.st_nlink ≤ 1) (hs : ino.subdir = []) :
    vfs_s_free_inode hooks (n + 1) i s = freeFin hooks i ino s := by
  have hno : ¬ 1 < ino.st.st_nlink := by omega
  have hloop := freeSubdirLoop_nil hooks n i s ino hi hs
  simp only [vfs_s_free_inode, hi, if_neg hno, hloop, freeFin]

theorem freeFin_inodes (hooks : Hooks) (i : Nat) (ino : VfsInode) (s : VfsState) :
    (freeFin hooks i ino s).inodes = removeA s.inodes i := by
  unfold freeFin
  split <;> split <;> rfl

theorem freeFin_entries (hooks : Hooks) (i : Nat) (ino : VfsInode) (s : VfsState) :
    (freeFin hooks i ino s).entries = s.entries := by
  unfold freeFin
  split <;> split <;> rfl

theorem freeFin_supers (hooks : Hooks) (i : Nat) (ino : VfsInode) (s : VfsState) :
    (freeFin hooks i ino s).supers =
      modifyA s.supers ino.superId (fun sp => { sp with ino_usage := sp.ino_usage - 1 }) := by
  unfold freeFin
  split <;> split <;> rfl

theorem freeFin_total_inodes (hooks : Hooks) (i : Nat) (ino : VfsInode) (s : VfsState) :
    (freeFin hooks i ino s).total_inodes = s.total_inodes - 1 := by
  unfold freeFin
  split <;> split <;> rfl

theorem freeFin_total_entries (hooks : Hooks) (i : Nat) (ino : VfsInode) (s : VfsState) :
    (freeFin hooks i ino s).total_entries = s.total_entries := by
  unfold freeFin
  split <;> split <;> rfl

theorem freeFin_events (hooks : Hooks) (i : Nat) (ino : VfsInode) (s : VfsState) :
    (freeFin hooks i ino s).events =
      s.events ++ (if hooks.has_free_inode then [.freeInodeHook i] else [])
        ++ (match ino.localname with
            | some l => [VfsEvent.unlinkHost l]
            | none => []) := by
  unfold freeFin
  split <;> split <;> simp_all [VfsState.addEvent, VfsState.modifySuper]

theorem map_usage_sub (o : Option VfsSuper) (a b c : Int)
    (h : ∀ x : Int, x - a - b = x - c) :
    (o.map (fun sp => { sp with ino_usage := sp.ino_usage - a })).map
      (fun sp => { sp with ino_usage := sp.ino_usage - b }) =
    o.map (fun sp => { sp with ino_usage := sp.ino_usage - c }) := by
  cases o with
  | none => rfl
  | some sp => simp [h sp.ino_usage]

theorem freeSubdir_frees (hooks : Hooks) :
    ∀ (children : List (Nat × Nat)) (fuel i su : Nat) (s : VfsState) (ino : VfsInode),
    s.lookupIno i = some ino →
    ino.subdir = children.map Prod.fst →
    ino.superId = su →
    children.length + 2 ≤ fuel →
    (∀ p ∈ children, childGone s i su p) →
    List.Pairwise (fun p q => p.1 ≠ q.1 ∧ p.2 ≠ q.2) children →
    ∃ ino2, (freeSubdirLoop hooks fuel i s).lookupIno i = some ino2 ∧
      ino2.subdir = [] ∧ ino2.localname = ino.localname ∧
      ino2.superId = ino.superId ∧ ino2.st.st_nlink = ino.st.st_nlink ∧
      (∀ p ∈ children, (freeSubdirLoop hooks fuel i s).lookupEnt p.1 = none) ∧
      (∀ p ∈ children, (freeSubdirLoop hooks fuel i s).lookupIno p.2 = none) ∧
      (freeSubdirLoop hooks fuel i s).total_inodes
        = s.total_inodes - children.length ∧
      (freeSubdirLoop hooks fuel i s).total_entries
        = s.total_entries - children.length ∧
      (freeSubdirLoop hooks fuel i s).lookupSuper su =
        (s.lookupSuper su).map
          (fun sp => { sp with ino_usage := sp.ino_usage - children.length }) ∧
      (freeSubdirLoop hooks fuel i s).events =
        s.events ++ (children.map (childEvs hooks s)).flatten ∧
      (∀ j, j ≠ i → (∀ p ∈ children, j ≠ p.2) →
        (freeSubdirLoop hooks fuel i s).lookupIno j = s.lookupIno j) ∧
      (∀ x, (∀ p ∈ children, x ≠ p.1) →
        (freeSubdirLoop hooks fuel i s).lookupEnt x = s.lookupEnt x) := by
  intro children
  induction children with
  | nil =>
    intro fuel i su s ino hi hs hsu _ _ _
    rw [freeSubdirLoop_nil hooks fuel i s ino hi (by simpa using hs)]
    refine ⟨ino, hi, by simpa using hs, rfl, rfl, rfl, by simp, by simp, by simp,
      by simp, ?_, by simp, fun _ _ _ => rfl, fun _ _ => rfl⟩
    cases hls : s.lookupSuper su with
    | none => simp
    | some sp => simp
  | cons hd rest ih =>
    intro fuel i su s ino hi hs hsu hfuel hok hpw
    obtain ⟨en, inoC, he, hdir, hino, hcIno, hnl, hcs, hcsu, hci⟩ := hok hd (by simp)
    obtain ⟨k, rfl⟩ : ∃ k, fuel = k + 3 := ⟨fuel - 3, by simp at hfuel; omega⟩
    rw [freeSubdirLoop_cons hooks (k + 2) i s ino hd.1 (rest.map Prod.fst) hi
      (by simpa using hs)]
    rw [free_entry_unfold hooks (k + 1) hd.1 i s en he hdir, hino]
    set f1 : VfsInode → VfsInode :=
      fun ino => { ino with subdir := removeFirst ino.subdir hd.1 } with hf1
    set f2 : VfsInode → VfsInode := fun ino => { ino with ent := none } with hf2
    set s2v : VfsState := (s.modifyIno i f1).modifyIno hd.2 f2 with hs2v
    have hc2 : s2v.lookupIno hd.2 = some (f2 inoC) := by
      rw [hs2v, lookupIno_modifyIno_self,
        lookupIno_modifyIno_ne s hd.2 i f1 hci, hcIno]
      rfl
    have hnl2 : (f2 inoC).st.st_nlink ≤ 1 := hnl
    have hcs2 : (f2 inoC).subdir = [] := hcs
    rw [free_inode_dealloc hooks k hd.2 s2v (f2 inoC) hc2 hnl2 hcs2]
    set sF : VfsState := freeFin hooks hd.2 (f2 inoC) s2v with hsF
    set s4 : VfsState :=
      { sF with
        total_entries := sF.total_entries - 1,
        entries := removeA sF.entries hd.1 } with hs4
    have hproj : (f2 inoC).superId = su := hcsu
    have hprojL : (f2 inoC).localname = inoC.localname := rfl
    have hi4 : s4.lookupIno i = some { ino with subdir := rest.map Prod.fst } := by
      have h0 : s4.lookupIno i = lookupA sF.inodes i := rfl
      rw [h0, hsF, freeFin_inodes, lookupA_removeA_ne _ i hd.2 (Ne.symm hci)]
      have h1 : lookupA s2v.inodes i = s2v.lookupIno i := rfl
      rw [h1, hs2v, lookupIno_modifyIno_ne _ i hd.2 f2 (Ne.symm hci),
        lookupIno_modifyIno_self, hi]
      simp only [Option.map_some', hf1]
      rw [show ino.subdir = hd.1 :: rest.map Prod.fst by simpa using hs]
      rw [removeFirst_cons_self]
    have hinoHd4 : s4.lookupIno hd.2 = none := by
      have h0 : s4.lookupIno hd.2 = lookupA sF.inodes hd.2 := rfl
      rw [h0, hsF, freeFin_inodes, lookupA_removeA_self]
    have hinos : ∀ j, j ≠ i → j ≠ hd.2 → s4.lookupIno j = s.lookupIno j := by
      intro j hji hjc
      have h0 : s4.lookupIno j = lookupA sF.inodes j := rfl
      rw [h0, hsF, freeFin_inodes, lookupA_removeA_ne _ j hd.2 hjc]
      have h1 : lookupA s2v.inodes j = s2v.lookupIno j := rfl
      rw [h1, hs2v, lookupIno_modifyIno_ne _ j hd.2 f2 hjc,
        lookupIno_modifyIno_ne s j i f1 hji]
    have hentHd : s4.lookupEnt hd.1 = none := by
      have h0 : s4.lookupEnt hd.1 = lookupA (removeA sF.entries hd.1) hd.1 := rfl
      rw [h0, lookupA_removeA_self]
    have hents : ∀ x, x ≠ hd.1 → s4.lookupEnt x = s.lookupEnt x := by
      intro x hx
      have h0 : s4.lookupEnt x = lookupA (removeA sF.entries hd.1) x := rfl
      rw [h0, lookupA_removeA_ne _ x hd.1 hx, hsF, freeFin_entries]
      rfl
    have htotI : s4.total_inodes = s.total_inodes - 1 := by
      have h0 : s4.total_inodes = sF.total_inodes := rfl
      rw [h0, hsF, freeFin_total_inodes]
      rfl
    have htotE : s4.total_entries = s.total_entries - 1 := by
      have h0 : s4.total_entries = sF.total_entries - 1 := rfl
      rw [h0, hsF, freeFin_total_entries]
      rfl
    have hsup4 : s4.lookupSuper su =
        (s.lookupSuper su).map
          (fun sp => { sp with ino_usage := sp.ino_usage - 1 }) := by
      have h0 : s4.lookupSuper su = lookupA sF.supers su := rfl
      rw [h0, hsF, freeFin_supers, hproj, lookupA_modifyA_self]
      rfl
    have hev4 : s4.events = s.events ++ childEvs hooks s hd := by
      have h0 : s4.events = sF.events := rfl
      rw [h0, hsF, freeFin_events, hprojL]
      have h1 : s2v.events = s.events := rfl
      rw [h1]
      simp [childEvs, hcIno, List.append_assoc]
    have hokR : ∀ p ∈ rest, childGone s4 i su p := by
      intro p hp
      obtain ⟨en2, inoC2, he2, hdir2, hino2, hc2b, hnl2b, hcs2b, hcsu2b, hci2⟩ :=
        hok p (by simp [hp])
      have hpne : p.1 ≠ hd.1 := by
        rcases List.pairwise_cons.mp hpw with ⟨hh, _⟩
        exact fun hEq => ((hh p hp).1 hEq.symm)
      have hpcne : p.2 ≠ hd.2 := by
        rcases List.pairwise_cons.mp hpw with ⟨hh, _⟩
        exact fun hEq => ((hh p hp).2 hEq.symm)
      exact ⟨en2, inoC2, by rw [hents p.1 hpne]; exact he2, hdir2, hino2,
        by rw [hinos p.2 hci2 hpcne]; exact hc2b, hnl2b, hcs2b, hcsu2b, hci2⟩
    have hpwR : List.Pairwise (fun p q => p.1 ≠ q.1 ∧ p.2 ≠ q.2) rest :=
      (List.pairwise_cons.mp hpw).2
    have hfuelR : rest.length + 2 ≤ k + 2 := by simp at hfuel; omega
    obtain ⟨ino2, hT, hsub2, hloc2, hsu2, hnlk2, hentsN, hinosN, hTI, hTE, hTS,
        hTEv, hFrI, hFrE⟩ :=
      ih (k + 2) i su s4 { ino with subdir := rest.map Prod.fst } hi4 rfl hsu
        hfuelR hokR hpwR
    refine ⟨ino2, hT, hsub2, hloc2, hsu2, hnlk2, ?_, ?_, ?_, ?_, ?_, ?_, ?_, ?_⟩
    · intro p hp
      rcases List.mem_cons.mp hp with hhd | htl
      · subst hhd
        have hne : ∀ q ∈ rest, p.1 ≠ q.1 := fun q hq =>
          ((List.pairwise_cons.mp hpw).1 q hq).1
        rw [hFrE p.1 hne]
        exact hentHd
      · exact hentsN p htl
    · intro p hp
      rcases List.mem_cons.mp hp with hhd | htl
      · subst hhd
        have hne : ∀ q ∈ rest, p.2 ≠ q.2 := fun q hq =>
          ((List.pairwise_cons.mp hpw).1 q hq).2
        rw [hFrI p.2 hci hne]
        exact hinoHd4
      · exact hinosN p htl
    · rw [hTI, htotI]
      simp only [List.length_cons]
      push_cast
      ring
    · rw [hTE, htotE]
      simp only [List.length_cons]
      push_cast
      ring
    · rw [hTS, hsup4, map_usage_sub]
      intro x
      simp only [List.length_cons]
      push_cast
      ring
    · rw [hTEv, hev4]
      have hce : ∀ p ∈ rest, childEvs hooks s4 p = childEvs hooks s p := by
        intro p hp
        obtain ⟨_, _, _, _, _, _, _, _, _, hci2⟩ := hok p (by simp [hp])
        have hpcne : p.2 ≠ hd.2 := by
          rcases List.pairwise_cons.mp hpw with ⟨hh, _⟩
          exact fun hEq => ((hh p hp).2 hEq.symm)
        unfold childEvs
        rw [hinos p.2 hci2 hpcne]
      rw [List.map_congr_left hce]
      simp [List.append_assoc]
    · intro j hji hjall
      rw [hFrI j hji (fun p hp => hjall p (by simp [hp])),
        hinos j hji (hjall hd (by simp))]
    · intro x hxall
      rw [hFrE x (fun p hp => hxall p (by simp [hp])),
        hents x (hxall hd (by simp))]

theorem lookupA_cons0 {α : Type} (p : Nat × α) (l : List (Nat × α)) (k : Nat) :
    lookupA (p :: l) k = if p.1 = k then some p.2 else lookupA l k := by
  by_cases h : p.1 = k
  · simp [lookupA, List.find?, beq_iff_eq, h]
  · have hb : (p.1 == k) = false := by simpa using h
    simp [lookupA, List.find?, hb, h]

theorem removeA_cons0 {α : Type} (p : Nat × α) (l : List (Nat × α)) (k : Nat) :
    removeA (p :: l) k = if p.1 = k then removeA l k else p :: removeA l k := by
  by_cases h : p.1 = k
  · have hb : (p.1 != k) = false := by simpa using h
    simp [removeA, List.filter, hb, h]
  · have hb : (p.1 != k) = true := by simpa using h
    simp [removeA, List.filter, hb, h]

theorem lookupA_removeA_self_c6 {α : Type} (l : List (Nat × α)) (k : Nat) :
    lookupA (removeA l k) k = none := by
  induction l with
  | nil => rfl
  | cons p t ih =>
    by_cases h : p.1 = k <;> simp [removeA_cons0, lookupA_cons0, h, ih]

theorem free_entry_removes (hooks : Hooks) (n e : Nat) (s : VfsState) (ent : VfsEntry)
    (he : s.lookupEnt e = some ent) :
    (vfs_s_free_entry hooks (n + 1) e s).lookupEnt e = none := by
  simp only [vfs_s_free_entry, he]
  exact lookupA_removeA_self_c6 _ _

theorem dir_uptodate_entries (i : Nat) (s s1 : VfsState) (b : Bool)
    (h : vfs_s_dir_uptodate i s = (b, s1)) :
    s1.entries = s.entries ∧ s1.inodes = s.inodes ∧ s1.supers = s.supers ∧
      s1.nextId = s.nextId := by
  simp only [vfs_s_dir_uptodate] at h
  by_cases hF : s.flush
  · simp [hF] at h
    rw [← h.2]
    exact ⟨rfl, rfl, rfl, rfl⟩
  · have hf : s.flush = false := by simpa using hF
    simp [hf] at h
    cases hL : s.lookupIno i <;> simp [hL] at h <;> rw [← h.2] <;>
      exact ⟨rfl, rfl, rfl, rfl⟩

theorem find?_append_none {α : Type} (l m : List α) (p : α → Bool)
    (h : l.find? p = none) : (l ++ m).find? p = m.find? p := by
  rw [List.find?_append, h, Option.none_or]

theorem free_preserves_events (hooks : Hooks) : ∀ fuel : Nat,
    (∀ i s x, x ∈ s.events → x ∈ (vfs_s_free_inode hooks fuel i s).events) ∧
    (∀ i s x, x ∈ s.events → x ∈ (freeSubdirLoop hooks fuel i s).events) ∧
    (∀ e s x, x ∈ s.events → x ∈ (vfs_s_free_entry hooks fuel e s).events) := by
  intro fuel
  induction fuel with
  | zero => exact ⟨fun _ _ _ h => h, fun _ _ _ h => h, fun _ _ _ h => h⟩
  | succ n ih =>
    obtain ⟨ihI, ihL, ihE⟩ := ih
    refine ⟨?_, ?_, ?_⟩
    · intro i s x h
      simp only [vfs_s_free_inode]
      split
      · exact h
      · split
        · simpa [VfsState.setIno] using h
        · have h1 := ihL i s x h
          split
          · exact h1
          · split <;> split <;>
              simp_all [VfsState.modifySuper, VfsState.addEvent, VfsState.lookupIno]
    · intro i s x h
      simp only [freeSubdirLoop]
      split
      · exact h
      · split
        · exact h
        · exact ihL i _ x (ihE _ s x h)
    · intro e s x h
      simp only [vfs_s_free_entry]
      split
      · exact h
      · have step : ∀ t : VfsState, x ∈ t.events →
            x ∈ (vfs_s_free_inode hooks n (0 : Nat) t).events := fun t ht => ihI 0 t x ht
        split <;>
          · show x ∈ (vfs_s_free_inode hooks n _ _).events
            exact ihI _ _ x (by simpa [VfsState.modifyIno] using h)

theorem lookupIno_stampCreate (x i : Nat) (t : VfsState) :
    (stampCreate x t).lookupIno i = t.lookupIno i := by
  unfold stampCreate; split <;> rfl

theorem lookupSuper_stampCreate (x j : Nat) (t : VfsState) :
    (stampCreate x t).lookupSuper j = t.lookupSuper j := by
  unfold stampCreate; split <;> rfl

theorem lookupSuper_setIno (t : VfsState) (i : Nat) (v : VfsInode) (j : Nat) :
    (t.setIno i v).lookupSuper j = t.lookupSuper j := rfl

theorem stamps_setIno (t : VfsState) (i : Nat) (v : VfsInode) :
    (t.setIno i v).stamps = t.stamps := rfl

theorem lookupIno_modifySuper (t : VfsState) (x : Nat) (f : VfsSuper → VfsSuper)
    (i : Nat) : (t.modifySuper x f).lookupIno i = t.lookupIno i := rfl

theorem stamps_modifySuper (t : VfsState) (x : Nat) (f : VfsSuper → VfsSuper) :
    (t.modifySuper x f).stamps = t.stamps := rfl

theorem lookupSuper_modifySuper_self (t : VfsState) (x : Nat)
    (f : VfsSuper → VfsSuper) :
    (t.modifySuper x f).lookupSuper x = (t.lookupSuper x).map f := by
  simp only [VfsState.lookupSuper, VfsState.modifySuper, lookupA_modifyA_self]

theorem lookupIno_setIno_self (t : VfsState) (i : Nat) (v : VfsInode) :
    (t.setIno i v).lookupIno i = (t.lookupIno i).map (fun _ => v) := by
  simp only [VfsState.lookupIno, VfsState.setIno, lookupA_updateA_self]

theorem loop_hop1 (m v f' : Nat) :
    vfs_s_resolve_symlink hooksTree (m + 1) (some 11) ((f' + 1 : Nat) : Int) (mkLoopState v) =
      findEntryDispatch hooksTree m (some 0) "loop" (((f' + 1 : Nat) : Int) - 1) {}
        (mkLoopState EAGAIN) := rfl

theorem loop_hop2 (m : Nat) (x : Int) (w : Nat) :
    findEntryDispatch hooksTree (m + 4) (some 0) "loop" x {} (mkLoopState w) =
      feTreeAfterFound hooksTree (m + 1) 11 "" x {} (mkLoopState w) := rfl

theorem loop_hop3 (m : Nat) (x : Int) (w : Nat) :
    feTreeAfterFound hooksTree (m + 1) 11 "" x {} (mkLoopState w) =
      (match vfs_s_resolve_symlink hooksTree m (some 11) x (mkLoopState w) with
       | (none, s1) => (none, s1)
       | (some e2, s1) =>
         match s1.lookupEnt e2 with
         | none => (none, s1)
         | some en2 => findEntryTreeLoop hooksTree m (some en2.ino) (some e2) "" x {} s1) := rfl

theorem loop_eloop :
    ∀ (f n v : Nat), 5 * f + 1 ≤ n →
      vfs_s_resolve_symlink hooksTree n (some 11) (f : Int) (mkLoopState v) =
        (none, mkLoopState ELOOP) := by
  intro f
  induction f with
  | zero =>
    intro n v hn
    obtain ⟨m, rfl⟩ : ∃ m, n = m + 1 := ⟨n - 1, by omega⟩
    rfl
  | succ f ih =>
    intro n v hn
    obtain ⟨m, rfl⟩ : ∃ m, n = m + 5 := ⟨n - 5, by omega⟩
    have hm : 5 * f + 1 ≤ m := by omega
    have hsub : (((f + 1 : Nat) : Int) - 1) = ((f : Nat) : Int) := by push_cast; ring
    calc vfs_s_resolve_symlink hooksTree (m + 4 + 1) (some 11) ((f + 1 : Nat) : Int)
          (mkLoopState v)
        = findEntryDispatch hooksTree (m + 4) (some 0) "loop" (((f + 1 : Nat) : Int) - 1) {}
            (mkLoopState EAGAIN) := loop_hop1 (m + 4) v f
      _ = feTreeAfterFound hooksTree (m + 1) 11 "" (((f + 1 : Nat) : Int) - 1) {}
            (mkLoopState EAGAIN) := loop_hop2 m _ EAGAIN
      _ = (none, mkLoopState ELOOP) := by
            rw [loop_hop3, hsub, ih m EAGAIN hm]

/-! The claim theorems. -/

/-- C1: `free_inode` on a multi-referenced inode only decrements `nlink` and
keeps it live; on a last-referenced inode it frees every child entry in
`subdir` recursively (deallocating each singly-referenced child inode with
its hook, host unlink and counter effects), runs the subclass hook, unlinks
the local copy if set, decrements the superblock's `ino_usage` and the
global inode count once per freed inode, and deallocates. -/
theorem claim_free_inode :
    (∀ (hooks : Hooks) (fuel i : Nat) (s : VfsState) (ino : VfsInode),
      s.lookupIno i = some ino → 1 < ino.st.st_nlink →
      vfs_s_free_inode hooks (fuel + 1) i s =
        s.setIno i { ino with st := { ino.st with st_nlink := ino.st.st_nlink - 1 } } ∧
      (s.setIno i { ino with st := { ino.st with st_nlink := ino.st.st_nlink - 1 } }).lookupIno i =
        some { ino with st := { ino.st with st_nlink := ino.st.st_nlink - 1 } })
  ∧ (∀ (hooks : Hooks) (fuel i : Nat) (s : VfsState) (ino : VfsInode),
      s.lookupIno i = some ino → ino.st.st_nlink ≤ 1 → ino.subdir = [] →
      (vfs_s_free_inode hooks (fuel + 1) i s).lookupIno i = none ∧
      (vfs_s_free_inode hooks (fuel + 1) i s).entries = s.entries ∧
      (vfs_s_free_inode hooks (fuel + 1) i s).total_inodes = s.total_inodes - 1 ∧
      (vfs_s_free_inode hooks (fuel + 1) i s).lookupSuper ino.superId =
        (s.lookupSuper ino.superId).map (fun sp => { sp with ino_usage := sp.ino_usage - 1 }) ∧
      (vfs_s_free_inode hooks (fuel + 1) i s).events =
        ((if hooks.has_free_inode then s.events ++ [.freeInodeHook i] else s.events) ++
          (match ino.localname with
            | some l => [.unlinkHost l]
            | none => [])) ∧
      (∀ j, j ≠ i → (vfs_s_free_inode hooks (fuel + 1) i s).lookupIno j = s.lookupIno j))
  ∧ (∀ (hooks : Hooks) (fuel i su : Nat) (s : VfsState) (ino : VfsInode)
      (children : List (Nat × Nat)),
      s.lookupIno i = some ino → ino.st.st_nlink ≤ 1 →
      ino.subdir = children.map Prod.fst →
      ino.superId = su →
      children.length + 2 ≤ fuel →
      (∀ p ∈ children, childGone s i su p) →
      List.Pairwise (fun p q => p.1 ≠ q.1 ∧ p.2 ≠ q.2) children →
      (vfs_s_free_inode hooks (fuel + 1) i s).lookupIno i = none ∧
      (∀ p ∈ children, (vfs_s_free_inode hooks (fuel + 1) i s).lookupEnt p.1 = none) ∧
      (∀ p ∈ children, (vfs_s_free_inode hooks (fuel + 1) i s).lookupIno p.2 = none) ∧
      (vfs_s_free_inode hooks (fuel + 1) i s).total_inodes
        = s.total_inodes - (children.length + 1) ∧
      (vfs_s_free_inode hooks (fuel + 1) i s).total_entries
        = s.total_entries - children.length ∧
      (vfs_s_free_inode hooks (fuel + 1) i s).lookupSuper su
        = (s.lookupSuper su).map
            (fun sp => { sp with ino_usage := sp.ino_usage - (children.length + 1) }) ∧
      (vfs_s_free_inode hooks (fuel + 1) i s).events
        = s.events ++ (children.map (childEvs hooks s)).flatten
            ++ (if hooks.has_free_inode then [.freeInodeHook i] else [])
            ++ (match ino.localname with
                | some l => [VfsEvent.unlinkHost l]
                | none => []) ∧
      (∀ j, j ≠ i → (∀ p ∈ children, j ≠ p.2) →
        (vfs_s_free_inode hooks (fuel + 1) i s).lookupIno j = s.lookupIno j)) := by
  refine ⟨?_, ?_, ?_⟩
  · intro hooks fuel i s ino hi hn
    constructor
    · simp only [vfs_s_free_inode, hi]
      rw [if_pos hn]
    · rw [show (s.setIno i _).lookupIno i = _ from lookupA_updateA_self s.inodes i _,
        show lookupA s.inodes i = some ino from hi]
      rfl
  · intro hooks fuel i s ino hi hn hsub
    have hno : ¬ 1 < ino.st.st_nlink := by omega
    have hloop : freeSubdirLoop hooks fuel i s = s :=
      freeSubdirLoop_nil hooks fuel i s ino hi hsub
    simp only [vfs_s_free_inode, hi, if_neg hno, hloop]
    refine ⟨?_, ?_, ?_, ?_, ?_, ?_⟩
    · split <;> split <;>
        simp [VfsState.lookupIno, VfsState.modifySuper, VfsState.addEvent,
          lookupA_removeA_self]
    · split <;> split <;>
        simp [VfsState.modifySuper, VfsState.addEvent]
    · split <;> split <;>
        simp [VfsState.modifySuper, VfsState.addEvent]
    · split <;> split <;>
        simp_all [VfsState.lookupSuper, VfsState.modifySuper, VfsState.addEvent,
          lookupA_modifyA_self]
    · split <;> split <;> simp_all [VfsState.modifySuper, VfsState.addEvent]
    · intro j hj
      split <;> split <;>
        simp_all [VfsState.lookupIno, VfsState.modifySuper, VfsState.addEvent,
          lookupA_removeA_ne _ j i hj]
  · intro hooks fuel i su s ino children hi hn hsub hsu hfuel hok hpw
    have hno : ¬ 1 < ino.st.st_nlink := by omega
    obtain ⟨ino2, hT, hsub2, hloc2, hsu2, hnlk2, hentsN, hinosN, hTI, hTE, hTS,
        hTEv, hFrI, hFrE⟩ :=
      freeSubdir_frees hooks children fuel i su s ino hi hsub hsu hfuel hok hpw
    have hmain : vfs_s_free_inode hooks (fuel + 1) i s =
        freeFin hooks i ino2 (freeSubdirLoop hooks fuel i s) := by
      simp only [vfs_s_free_inode, hi, if_neg hno, hT, freeFin]
    rw [hmain]
    set T : VfsState := freeSubdirLoop hooks fuel i s with hTdef
    refine ⟨?_, ?_, ?_, ?_, ?_, ?_, ?_, ?_⟩
    · show lookupA (freeFin hooks i ino2 T).inodes i = none
      rw [freeFin_inodes, lookupA_removeA_self]
    · intro p hp
      show lookupA (freeFin hooks i ino2 T).entries p.1 = none
      rw [freeFin_entries]
      exact hentsN p hp
    · intro p hp
      obtain ⟨_, _, _, _, _, _, _, _, _, hci⟩ := hok p hp
      show lookupA (freeFin hooks i ino2 T).inodes p.2 = none
      rw [freeFin_inodes, lookupA_removeA_ne _ p.2 i hci]
      exact hinosN p hp
    · rw [freeFin_total_inodes, hTI]
      ring
    · rw [freeFin_total_entries, hTE]
    · have hsid : ino2.superId = su := by rw [hsu2, hsu]
      show lookupA (freeFin hooks i ino2 T).supers su = _
      rw [freeFin_supers, hsid, lookupA_modifyA_self]
      have h1 : lookupA T.supers su = T.lookupSuper su := rfl
      rw [h1, hTS, map_usage_sub]
      intro x
      ring
    · rw [freeFin_events, hloc2, hTEv]
    · intro j hji hjall
      show lookupA (freeFin hooks i ino2 T).inodes j = _
      rw [freeFin_inodes, lookupA_removeA_ne _ j i hji]
      exact hFrI j hji hjall

/-- C1 witness: a root directory holding one singly-referenced child file;
freeing the root deallocates the child entry and inode and the root itself. -/
theorem claim_free_inode_witness :
    (vfs_s_free_inode hooks0 5 1 wMultiS =
      wMultiS.setIno 1 { wMulti with st := { wMulti.st with st_nlink := wMulti.st.st_nlink - 1 } }) ∧
    ((vfs_s_free_inode hooks0 5 1 wState).lookupIno 1 = none) ∧
    ((vfs_s_free_inode hooks0 4 0 wState).lookupIno 0 = none ∧
     (vfs_s_free_inode hooks0 4 0 wState).lookupEnt 10 = none ∧
     (vfs_s_free_inode hooks0 4 0 wState).lookupIno 1 = none ∧
     (vfs_s_free_inode hooks0 4 0 wState).total_inodes = wState.total_inodes - 2 ∧
     (vfs_s_free_inode hooks0 4 0 wState).lookupSuper 100 =
       (wState.lookupSuper 100).map
         (fun sp => { sp with ino_usage := sp.ino_usage - 2 })) := by
  refine ⟨?_, ?_, ?_⟩
  · exact (claim_free_inode.1 hooks0 4 1 wMultiS wMulti (by decide) (by decide)).1
  · exact (claim_free_inode.2.1 hooks0 4 1 wState wFileIno (by decide) (by decide) rfl).1
  · have h := claim_free_inode.2.2 hooks0 3 0 100 wState wRootIno [(10, 1)] (by decide)
      (by decide) rfl rfl (by simp)
      (by
        intro p hp
        simp only [List.mem_singleton] at hp
        subst hp
        exact ⟨wFileEnt, wFileIno, by decide, rfl, rfl, by decide, by decide,
          by decide, by decide, by decide⟩)
      (by simp)
    exact ⟨h.1, h.2.1 (10, 1) (by simp), h.2.2.1 (10, 1) (by simp), h.2.2.2.1,
      h.2.2.2.2.2.1⟩

/-- C2: in the tree resolver, a path segment not found by the exact-name scan
of the current directory's children is auto-created (mode `0777`, OR
`S_IFDIR` under `FL_MKDIR`, named with the text up to the next separator)
when `FL_MKFILE | FL_MKDIR` is set, and otherwise the resolver sets
`errno = ENOENT` and returns null. -/
theorem claim_tree_automake :
    (∀ (hooks : Hooks) (fuel r : Nat) (acc : Option Nat) (path : String) (follow : Int)
       (flags : Flags) (s : VfsState) (rino : VfsInode),
      s.lookupIno r = some rino →
      dropSeps path ≠ "" →
      rino.subdir.find? (fun e => entName s e == some (firstSeg (dropSeps path))) = none →
      flags.mkfile = false → flags.mkdir = false →
      findEntryTreeLoop hooks (fuel + 1) (some r) acc path follow flags s =
        (none, s.setErrno ENOENT))
  ∧ (∀ (hooks : Hooks) (fuel r : Nat) (acc : Option Nat) (path : String) (follow : Int)
       (flags : Flags) (s : VfsState) (rino : VfsInode),
      s.lookupIno r = some rino →
      dropSeps path ≠ "" →
      rino.subdir.find? (fun e => entName s e == some (firstSeg (dropSeps path))) = none →
      (flags.mkfile = true ∨ flags.mkdir = true) →
      findEntryTreeLoop hooks (fuel + 1) (some r) acc path follow flags s =
        feTreeAfterFound hooks fuel (vfs_s_automake hooks r (dropSeps path) flags s).1
          (strDrop (dropSeps path) (firstSeg (dropSeps path)).length) follow flags
          (vfs_s_automake hooks r (dropSeps path) flags s).2)
  ∧ (∀ (hooks : Hooks) (r : Nat) (path : String) (flags : Flags) (s : VfsState)
       (rino : VfsInode),
      s.lookupIno r = some rino →
      s.lookupIno s.nextId = none →
      s.lookupEnt (s.nextId + 1) = none →
      r ≠ s.nextId →
      (vfs_s_automake hooks r path flags s).1 = s.nextId + 1 ∧
      (vfs_s_automake hooks r path flags s).2.lookupEnt (s.nextId + 1) =
        some { name := firstSeg path, dir := some r, ino := s.nextId } ∧
      ((vfs_s_automake hooks r path flags s).2.lookupIno s.nextId).map
          (fun x => (x.st.st_mode, x.superId, x.st.st_nlink, x.ent)) =
        some ((if flags.mkdir then Nat.lor 0o777 S_IFDIR else 0o777) -
            Nat.land (if flags.mkdir then Nat.lor 0o777 S_IFDIR else 0o777) s.umask,
          rino.superId, 1, some (s.nextId + 1)) ∧
      (vfs_s_automake hooks r path flags s).2.lookupIno r =
        some { rino with subdir := rino.subdir ++ [s.nextId + 1] }) := by
  refine ⟨?_, ?_, ?_⟩
  · intro hooks fuel r acc path follow flags s rino hi hne hfind hmf hmd
    simp only [findEntryTreeLoop, hi, hfind, hmf, hmd, if_neg hne]
    simp
  · intro hooks fuel r acc path follow flags s rino hi hne hfind hmk
    obtain ⟨e0, s0, hE⟩ : ∃ e0 s0, vfs_s_automake hooks r (dropSeps path) flags s = (e0, s0) :=
      ⟨_, _, rfl⟩
    have hmk2 : (flags.mkfile ∨ flags.mkdir) := by
      rcases hmk with h | h <;> simp [h]
    simp only [findEntryTreeLoop, hi, hfind, if_neg hne, hE, if_pos hmk2]
  · intro hooks r path flags s rino hi hfI hfE hrne
    have hi' : lookupA s.inodes r = some rino := hi
    have hfI' : lookupA s.inodes s.nextId = none := hfI
    have hfE' : lookupA s.entries (s.nextId + 1) = none := hfE
    have hrne2 : s.nextId ≠ r := fun h => hrne h.symm
    by_cases h1 : hooks.has_init_inode <;> by_cases h2 : hooks.has_init_entry <;>
      refine ⟨?_, ?_, ?_, ?_⟩ <;>
      simp [vfs_s_automake, vfs_s_generate_entry, vfs_s_new_inode, vfs_s_new_entry,
        vfs_s_insert_entry, vfs_s_default_stat, h1, h2, hi',
        VfsState.lookupEnt, VfsState.lookupIno, VfsState.modifyEnt, VfsState.modifyIno,
        VfsState.modifySuper, VfsState.addEvent, VfsState.setIno,
        lookupA_append, lookupA_modifyA_self, lookupA_modifyA_ne, hfI', hfE',
        lookupA_cons, hrne, hrne2]

/-- C2 witness. -/
theorem claim_tree_automake_witness :
    (findEntryTreeLoop hooksTree 5 (some 0) none "nope" LINK_FOLLOW {} wState =
      (none, wState.setErrno ENOENT)) ∧
    (findEntryTreeLoop hooksTree 5 (some 0) none "d" LINK_FOLLOW { mkdir := true } wState =
      feTreeAfterFound hooksTree 4
        (vfs_s_automake hooksTree 0 (dropSeps "d") { mkdir := true } wState).1
        (strDrop (dropSeps "d") (firstSeg (dropSeps "d")).length) LINK_FOLLOW
        { mkdir := true }
        (vfs_s_automake hooksTree 0 (dropSeps "d") { mkdir := true } wState).2) ∧
    ((vfs_s_automake hooksTree 0 "d/x" { mkdir := true } wState).1 = wState.nextId + 1 ∧
     (vfs_s_automake hooksTree 0 "d/x" { mkdir := true } wState).2.lookupEnt (wState.nextId + 1) =
       some { name := firstSeg "d/x", dir := some 0, ino := wState.nextId } ∧
     ((vfs_s_automake hooksTree 0 "d/x" { mkdir := true } wState).2.lookupIno wState.nextId).map
         (fun x => (x.st.st_mode, x.superId, x.st.st_nlink, x.ent)) =
       some ((if ({ mkdir := true } : Flags).mkdir then Nat.lor 0o777 S_IFDIR else 0o777) -
           Nat.land (if ({ mkdir := true } : Flags).mkdir then Nat.lor 0o777 S_IFDIR else 0o777)
             wState.umask,
         wRootIno.superId, 1, some (wState.nextId + 1)) ∧
     (vfs_s_automake hooksTree 0 "d/x" { mkdir := true } wState).2.lookupIno 0 =
       some { wRootIno with subdir := wRootIno.subdir ++ [wState.nextId + 1] }) := by
  refine ⟨?_, ?_, ?_⟩
  · exact claim_tree_automake.1 hooksTree 4 0 none "nope" LINK_FOLLOW {} wState wRootIno
      (by decide) (by decide) (by decide) rfl rfl
  · exact claim_tree_automake.2.1 hooksTree 4 0 none "d" LINK_FOLLOW { mkdir := true }
      wState wRootIno (by decide) (by decide) (by decide) (Or.inr rfl)
  · exact claim_tree_automake.2.2 hooksTree 0 "d/x" { mkdir := true } wState wRootIno
      (by decide) (by decide) (by decide) (by decide)

/-- C3: when the remaining path is empty after stripping leading separators
(including an initially empty canonical path), `find_entry_tree` returns the
accumulator entry resolved so far -- `null` when no segment was consumed --
without touching the state or errno. -/
theorem claim_tree_empty_path :
    (∀ (hooks : Hooks) (fuel : Nat) (r : Nat) (acc : Option Nat) (path : String)
       (follow : Int) (flags : Flags) (s : VfsState),
       dropSeps path = "" →
       findEntryTreeLoop hooks (fuel + 1) (some r) acc path follow flags s = (acc, s))
  ∧ (∀ (hooks : Hooks) (fuel : Nat) (r : Nat) (a_path : String) (follow : Int)
       (flags : Flags) (s : VfsState),
       dropSeps (canonicalize a_path) = "" →
       vfs_s_find_entry_tree hooks (fuel + 2) (some r) a_path follow flags s = (none, s)) := by
  constructor
  · intro hooks fuel r acc path follow flags s h
    simp [findEntryTreeLoop, h]
  · intro hooks fuel r a_path follow flags s h
    simp [vfs_s_find_entry_tree, findEntryTreeLoop, h]

/-- C3 witness. -/
theorem claim_tree_empty_path_witness :
    findEntryTreeLoop hooksTree 1 (some 0) (some 10) "" 15 {} wState = (some 10, wState) ∧
    vfs_s_find_entry_tree hooksTree 2 (some 0) "./" 15 {} wState = (none, wState) :=
  ⟨claim_tree_empty_path.1 hooksTree 0 0 (some 10) "" 15 {} wState (by decide),
   claim_tree_empty_path.2 hooksTree 0 0 "./" 15 {} wState (by decide)⟩

/-- C4: `resolve_symlink` passes the entry through under `LINK_NO_FOLLOW`
or on a non-symlink; fails `ELOOP` at a zero budget, `ENOENT` on a null
entry, `EFAULT` on a symlink without target; a relative target is rebased
under `fullpath(entry->dir)` and re-resolved through the class-bound
`find_entry` from the superblock root with budget `follow - 1`; and the
witness chain that loops on itself yields `ELOOP` whenever the chain is
longer than the budget. -/
theorem claim_resolve_symlink :
    (∀ (hooks : Hooks) (fuel : Nat) (entry : Option Nat) (s : VfsState),
      vfs_s_resolve_symlink hooks (fuel + 1) entry LINK_NO_FOLLOW s = (entry, s))
  ∧ (∀ (hooks : Hooks) (fuel : Nat) (entry : Option Nat) (s : VfsState),
      vfs_s_resolve_symlink hooks (fuel + 1) entry 0 s = (none, s.setErrno ELOOP))
  ∧ (∀ (hooks : Hooks) (fuel : Nat) (follow : Int) (s : VfsState),
      follow ≠ LINK_NO_FOLLOW → follow ≠ 0 →
      vfs_s_resolve_symlink hooks (fuel + 1) none follow s = (none, s.setErrno ENOENT))
  ∧ (∀ (hooks : Hooks) (fuel e : Nat) (follow : Int) (s : VfsState)
       (ent : VfsEntry) (ino : VfsInode),
      follow ≠ LINK_NO_FOLLOW → follow ≠ 0 →
      s.lookupEnt e = some ent → s.lookupIno ent.ino = some ino →
      S_ISLNK ino.st.st_mode = false →
      vfs_s_resolve_symlink hooks (fuel + 1) (some e) follow s = (some e, s))
  ∧ (∀ (hooks : Hooks) (fuel e : Nat) (follow : Int) (s : VfsState)
       (ent : VfsEntry) (ino : VfsInode),
      follow ≠ LINK_NO_FOLLOW → follow ≠ 0 →
      s.lookupEnt e = some ent → s.lookupIno ent.ino = some ino →
      S_ISLNK ino.st.st_mode = true → ino.linkname = none →
      vfs_s_resolve_symlink hooks (fuel + 1) (some e) follow s =
        (none, s.setErrno EFAULT))
  ∧ (∀ (hooks : Hooks) (fuel e : Nat) (follow : Int) (s s1 : VfsState)
       (ent : VfsEntry) (ino dino : VfsInode) (link fp : String) (d rt : Nat),
      follow ≠ LINK_NO_FOLLOW → follow ≠ 0 →
      s.lookupEnt e = some ent → s.lookupIno ent.ino = some ino →
      S_ISLNK ino.st.st_mode = true → ino.linkname = some link →
      startsWithSep link = false → ent.dir = some d →
      vfs_s_fullpath hooks (s.inodes.length + 1) d s = (some fp, s1) →
      s1.lookupIno d = some dino →
      (s1.lookupSuper dino.superId).bind (fun x => x.root) = some rt →
      vfs_s_resolve_symlink hooks (fuel + 1) (some e) follow s =
        findEntryDispatch hooks fuel (some rt) (fp ++ "/" ++ link) (follow - 1) {} s1)
  ∧ (∀ (f n v : Nat), 5 * f + 1 ≤ n →
      vfs_s_resolve_symlink hooksTree n (some 11) (f : Int) (mkLoopState v) =
        (none, mkLoopState ELOOP)) := by
  refine ⟨?_, ?_, ?_, ?_, ?_, ?_, loop_eloop⟩
  · intro hooks fuel entry s
    simp [vfs_s_resolve_symlink, LINK_NO_FOLLOW]
  · intro hooks fuel entry s
    simp [vfs_s_resolve_symlink, LINK_NO_FOLLOW]
  · intro hooks fuel follow s h1 h2
    simp [vfs_s_resolve_symlink, if_neg h1, if_neg h2]
  · intro hooks fuel e follow s ent ino h1 h2 he hino hlnk
    simp [vfs_s_resolve_symlink, if_neg h1, if_neg h2, he, hino, hlnk]
  · intro hooks fuel e follow s ent ino h1 h2 he hino hlnk hnone
    simp [vfs_s_resolve_symlink, if_neg h1, if_neg h2, he, hino, hlnk, hnone]
  · intro hooks fuel e follow s s1 ent ino dino link fp d rt h1 h2 he hino hlnk
      hrel hdir hfp hd hroot hrt
    have hreb : rebaseLink hooks d link s = (fp ++ "/" ++ link, s1) := by
      simp [rebaseLink, hdir, hd]
    simp only [vfs_s_resolve_symlink, if_neg h1, if_neg h2, he, hino, hlnk, hrel,
      hdir, hfp, hd, hreb]
    split
    · simp_all
    · split <;> simp_all

theorem claim_resolve_symlink_witness :
    ((1 : Int) ≠ LINK_NO_FOLLOW)
    ∧ (5 * 1 + 1 ≤ 6)
    ∧ (vfs_s_resolve_symlink hooksTree 1 (some 11) LINK_NO_FOLLOW wLoopS
        = (some 11, wLoopS))
    ∧ (vfs_s_resolve_symlink hooksTree 1 (some 11) 0 wLoopS
        = (none, wLoopS.setErrno ELOOP))
    ∧ (vfs_s_resolve_symlink hooksTree 1 none 1 wLoopS
        = (none, wLoopS.setErrno ENOENT))
    ∧ (vfs_s_resolve_symlink hooksTree 6 (some 11) ((1 : Nat) : Int) (mkLoopState 0)
        = (none, mkLoopState ELOOP)) :=
  ⟨by decide, by decide,
   claim_resolve_symlink.1 hooksTree 0 (some 11) wLoopS,
   claim_resolve_symlink.2.1 hooksTree 0 (some 11) wLoopS,
   claim_resolve_symlink.2.2.1 hooksTree 0 1 wLoopS (by decide) (by decide),
   claim_resolve_symlink.2.2.2.2.2.2 1 6 0 (by decide)⟩

/-- C5: `dir_uptodate` consumes a set class-wide `flush` flag (returning
false and clearing it -- one-shot), otherwise returns true iff the current
wall-clock second is strictly before the inode's expiry timestamp; the flag
is always clear afterwards. -/
theorem claim_dir_uptodate :
    (∀ (i : Nat) (s : VfsState), s.flush = true →
      vfs_s_dir_uptodate i s = (false, { s with flush := false }))
  ∧ (∀ (i : Nat) (s : VfsState) (ino : VfsInode), s.flush = false →
      s.lookupIno i = some ino →
      vfs_s_dir_uptodate i s = (decide (s.now < ino.timestamp), s))
  ∧ (∀ (i : Nat) (s : VfsState), ((vfs_s_dir_uptodate i s).2).flush = false) := by
  refine ⟨?_, ?_, ?_⟩
  · intro i s h; simp [vfs_s_dir_uptodate, h]
  · intro i s ino h hl; simp [vfs_s_dir_uptodate, h, hl]
  · intro i s
    by_cases h : s.flush
    · simp [vfs_s_dir_uptodate, h]
    · have hf : s.flush = false := by simpa using h
      simp [vfs_s_dir_uptodate, hf]
      cases s.lookupIno i <;> simp [hf]

/-- C5 witness. -/
theorem claim_dir_uptodate_witness :
    vfs_s_dir_uptodate 0 { wState with flush := true } =
      (false, { wState with flush := false }) ∧
    vfs_s_dir_uptodate 1 { wState with now := 3 } = (false, { wState with now := 3 }) := by
  constructor
  · exact claim_dir_uptodate.1 0 { wState with flush := true } rfl
  · have := claim_dir_uptodate.2.1 1 { wState with now := 3 } wFileIno rfl (by decide)
    simpa using this

/-- C6: in the linear resolver with `FL_DIR`, a cached entry found by
full-path name whose `dir_uptodate` check fails is freed (after the "cache
expired" message) and the lookup proceeds as a miss; a miss builds a fresh
directory inode via `default_stat(S_IFDIR | 0755)` wrapped in an entry named
by the canonical path and calls the subclass `dir_load`: on failure the
entry is freed and null returned, on success the entry is inserted into the
flat root and returned. -/
theorem claim_linear_dir_cache :
    (∀ (hooks : Hooks) (fuel r : Nat) (a_path : String) (follow : Int) (flags : Flags)
       (s s1 : VfsState) (rino : VfsInode) (e : Nat) (en : VfsEntry),
      flags.dir = true →
      s.lookupIno r = some rino →
      ((s.lookupSuper rino.superId).bind (fun x => x.root)) = some r →
      rino.subdir.find? (fun x => entName s x == some (canonicalize a_path)) = some e →
      s.lookupEnt e = some en →
      vfs_s_dir_uptodate en.ino s = (false, s1) →
      vfs_s_find_entry_linear hooks (fuel + 2) r a_path follow flags s =
        linearMissLoad hooks (fuel + 1) r (canonicalize a_path)
          (vfs_s_free_entry hooks (fuel + 1) e
            (s1.addEvent (.message ("Directory cache expired for " ++ canonicalize a_path)))) ∧
      (vfs_s_free_entry hooks (fuel + 1) e
          (s1.addEvent (.message ("Directory cache expired for " ++ canonicalize a_path)))).lookupEnt e =
        none)
  ∧ (∀ (hooks : Hooks) (fuel r : Nat) (a_path : String) (follow : Int) (flags : Flags)
       (s : VfsState) (rino : VfsInode),
      flags.dir = true →
      s.lookupIno r = some rino →
      ((s.lookupSuper rino.superId).bind (fun x => x.root)) = some r →
      rino.subdir.find? (fun x => entName s x == some (canonicalize a_path)) = none →
      vfs_s_find_entry_linear hooks (fuel + 2) r a_path follow flags s =
        linearMissLoad hooks (fuel + 1) r (canonicalize a_path) s)
  ∧ (∀ (hooks : Hooks) (fuel r : Nat) (path : String) (s : VfsState) (rino : VfsInode),
      s.lookupIno r = some rino →
      s.lookupIno s.nextId = none →
      s.lookupEnt (s.nextId + 1) = none →
      r ≠ s.nextId →
      rino.subdir.find? (fun x => entName s x == some path) = none →
      (∀ x ∈ rino.subdir, x < s.nextId) →
      ((hooks.dir_load_ok path = false →
        (linearMissLoad hooks (fuel + 2) r path s).1 = none ∧
        ((linearMissLoad hooks (fuel + 2) r path s).2.lookupEnt (s.nextId + 1)) = none ∧
        VfsEvent.dirLoadCall s.nextId path ∈ (linearMissLoad hooks (fuel + 2) r path s).2.events) ∧
       (hooks.dir_load_ok path = true →
        (linearMissLoad hooks (fuel + 2) r path s).1 = some (s.nextId + 1) ∧
        ((linearMissLoad hooks (fuel + 2) r path s).2.lookupEnt (s.nextId + 1)) =
          some { name := path, dir := some r, ino := s.nextId } ∧
        (((linearMissLoad hooks (fuel + 2) r path s).2.lookupIno r).map (fun x => x.subdir)) =
          some (rino.subdir ++ [s.nextId + 1]) ∧
        (((linearMissLoad hooks (fuel + 2) r path s).2.lookupIno s.nextId).map
            (fun x => (x.st.st_mode, x.superId, x.st.st_nlink, x.ent))) =
          some ((Nat.lor S_IFDIR 0o755) - Nat.land (Nat.lor S_IFDIR 0o755) s.umask,
            rino.superId, 1, some (s.nextId + 1)) ∧
        VfsEvent.dirLoadCall s.nextId path ∈
          (linearMissLoad hooks (fuel + 2) r path s).2.events))) := by
  refine ⟨?_, ?_, ?_⟩
  · intro hooks fuel r a_path follow flags s s1 rino e en hdir hi hrt hfind he hup
    have hrt2 : ¬ ((s.lookupSuper rino.superId).bind (fun x => x.root)) ≠ some r := by
      simp [hrt]
    have hdir2 : ¬ ¬ flags.dir = true := by simp [hdir]
    constructor
    · simp only [vfs_s_find_entry_linear, hi, if_neg hrt2, if_neg hdir2, hfind, he, hup]
    · -- the freed entry is gone
      have he1 : (s1.addEvent
          (.message ("Directory cache expired for " ++ canonicalize a_path))).lookupEnt e =
          some en := by
        have := (dir_uptodate_entries en.ino s s1 false hup).1
        simp [VfsState.lookupEnt, VfsState.addEvent, this]
        exact he
      exact free_entry_removes hooks fuel e _ en he1
  · intro hooks fuel r a_path follow flags s rino hdir hi hrt hfind
    have hrt2 : ¬ ((s.lookupSuper rino.superId).bind (fun x => x.root)) ≠ some r := by
      simp [hrt]
    have hdir2 : ¬ ¬ flags.dir = true := by simp [hdir]
    simp only [vfs_s_find_entry_linear, hi, if_neg hrt2, if_neg hdir2, hfind]
  · intro hooks fuel r path s rino hi hfI hfE hrne hfind hlt
    have hi' : lookupA s.inodes r = some rino := hi
    have hfI' : lookupA s.inodes s.nextId = none := hfI
    have hfE' : lookupA s.entries (s.nextId + 1) = none := hfE
    have hrne2 : s.nextId ≠ r := fun h => hrne h.symm
    constructor
    · intro hload
      by_cases h1 : hooks.has_init_inode <;> by_cases h2 : hooks.has_init_entry <;>
        refine ⟨?_, ?_, ?_⟩ <;>
        simp [linearMissLoad, vfs_s_new_inode, vfs_s_new_entry, vfs_s_default_stat,
          vfs_s_free_entry, h1, h2, hload, hi',
          VfsState.lookupEnt, VfsState.lookupIno, VfsState.modifyEnt, VfsState.modifyIno,
          VfsState.modifySuper, VfsState.addEvent,
          lookupA_append, lookupA_modifyA_self, lookupA_modifyA_ne, hfI', hfE',
          lookupA_cons, lookupA_removeA_self_c6] <;>
        exact (free_preserves_events hooks fuel).1 _ _ _ (by simp [VfsState.addEvent])
    · intro hload
      have hfindOld : List.find?
          (fun e => Option.map (fun x => x.name)
              (lookupA (modifyA (s.entries ++ [(s.nextId + 1,
                  ({ name := path, dir := none, ino := s.nextId } : VfsEntry))])
                (s.nextId + 1) fun en => { name := en.name, dir := some r, ino := en.ino }) e) ==
            some path) rino.subdir = none := by
        rw [List.find?_eq_none] at hfind ⊢
        intro x hx
        have hne : x ≠ s.nextId + 1 := by have := hlt x hx; omega
        rw [lookupA_modifyA_ne _ _ _ _ hne, lookupA_append]
        have hne2 : ¬ (s.nextId + 1 = x) := fun hh => hne hh.symm
        have h0 : lookupA [(s.nextId + 1,
            ({ name := path, dir := none, ino := s.nextId } : VfsEntry))] x = none := by
          rw [lookupA_cons]
          simp [hne2]
          rfl
        rw [h0]
        have hx2 := hfind x hx
        simpa [entName, VfsState.lookupEnt] using hx2
      by_cases h1 : hooks.has_init_inode <;> by_cases h2 : hooks.has_init_entry <;>
      refine ⟨?_, ?_, ?_, ?_, ?_⟩ <;>
      simp [linearMissLoad, vfs_s_new_inode, vfs_s_new_entry, vfs_s_default_stat,
        vfs_s_insert_entry, h1, h2, hload, hi', entName,
        VfsState.lookupEnt, VfsState.lookupIno, VfsState.modifyEnt, VfsState.modifyIno,
        VfsState.modifySuper, VfsState.addEvent, List.find?_append,
        lookupA_append, lookupA_modifyA_self, lookupA_modifyA_ne, hfI', hfE',
        lookupA_cons, hrne, hrne2, hfindOld]

/-- C6 witness. -/
theorem claim_linear_dir_cache_witness :
    (vfs_s_find_entry_linear hooksRem 7 0 "pub" LINK_FOLLOW { dir := true } wStaleS =
      linearMissLoad hooksRem 6 0 (canonicalize "pub")
        (vfs_s_free_entry hooksRem 6 12
          (wStaleS.addEvent (.message ("Directory cache expired for " ++ canonicalize "pub")))) ∧
     (vfs_s_free_entry hooksRem 6 12
        (wStaleS.addEvent
          (.message ("Directory cache expired for " ++ canonicalize "pub")))).lookupEnt 12 = none) ∧
    (vfs_s_find_entry_linear hooksRem 7 0 "zzz" LINK_FOLLOW { dir := true } wStaleS =
      linearMissLoad hooksRem 6 0 (canonicalize "zzz") wStaleS) ∧
    ((linearMissLoad hooksRem 7 0 "zzz" wState).1 = some (wState.nextId + 1) ∧
     ((linearMissLoad hooksRem 7 0 "zzz" wState).2.lookupEnt (wState.nextId + 1)) =
       some { name := "zzz", dir := some 0, ino := wState.nextId }) := by
  refine ⟨?_, ?_, ?_⟩
  · exact claim_linear_dir_cache.1 hooksRem 5 0 "pub" LINK_FOLLOW { dir := true }
      wStaleS wStaleS { wRootIno with subdir := [12] } 12 wPubEnt rfl (by decide) (by decide)
      (by decide) (by decide) (by decide)
  · exact claim_linear_dir_cache.2.1 hooksRem 5 0 "zzz" LINK_FOLLOW { dir := true }
      wStaleS { wRootIno with subdir := [12] } rfl (by decide) (by decide) (by decide)
  · have h := (claim_linear_dir_cache.2.2 hooksRem 5 0 "zzz" wState wRootIno
      (by decide) (by decide) (by decide) (by decide) (by decide)
      (by intro x hx; simp [wRootIno] at hx; subst hx; decide)).2 rfl
    exact ⟨h.1, h.2.1⟩

/-- C7: a successful `open` bumps the superblock's `fd_usage` and the
inode's `nlink` and removes the super's idle stamp; the following successful
`close` brings `fd_usage` back to its prior value, re-registers the idle
stamp exactly when that value is zero, and releases the `nlink` hold via
`free_inode`, so the roundtrip preserves both counters. -/
theorem claim_open_close_roundtrip
    (hooks : Hooks) (fuel m : Nat) (file : String) (oflags : OFlags)
    (s s1 s2 : VfsState) (sup i : Nat) (q : String) (ino : VfsInode) (spRec : VfsSuper)
    (hgp : vfs_s_get_path hooks fuel file false s = (some (sup, q), s1))
    (hfi : vfs_s_find_inode hooks fuel sup q LINK_FOLLOW {} s1 = (some i, s2))
    (hino : s2.lookupIno i = some ino)
    (hsup : ino.superId = sup)
    (hsp : s2.lookupSuper sup = some spRec)
    (hnd : S_ISDIR ino.st.st_mode = false)
    (hnl : 1 ≤ ino.st.st_nlink)
    (hln : ino.localname = none)
    (hne : ¬ (oflags.creat = true ∧ oflags.excl = true))
    (hlin : oflags.linear = false)
    (hfo : hooks.has_fh_open = false)
    (hfc : hooks.has_fh_close = false) :
    ∃ s3 s4 : VfsState,
      vfs_s_open hooks fuel file oflags s = (some { ino := i }, s3)
      ∧ (∃ sp3, s3.lookupSuper sup = some sp3 ∧ sp3.fd_usage = spRec.fd_usage + 1)
      ∧ (∃ ino3, s3.lookupIno i = some ino3 ∧ ino3.st.st_nlink = ino.st.st_nlink + 1)
      ∧ sup ∉ s3.stamps
      ∧ vfs_s_close hooks (m + 1) { ino := i } s3 = (0, s4)
      ∧ (∃ sp4, s4.lookupSuper sup = some sp4 ∧ sp4.fd_usage = spRec.fd_usage)
      ∧ (∃ ino4, s4.lookupIno i = some ino4 ∧ ino4.st.st_nlink = ino.st.st_nlink)
      ∧ (sup ∈ s4.stamps ↔ spRec.fd_usage = 0) := by
  have hopen : vfs_s_open hooks fuel file oflags s
      = vfs_s_open_fin sup i { ino := i } s2 := by
    simp only [vfs_s_open, hgp, hfi, if_neg hne, vfs_s_open_post, hino, hnd,
      Bool.false_eq_true, if_false, hlin, false_and, hfo, hln]
  obtain ⟨s3, hs3⟩ : ∃ t, vfs_s_open_fin sup i ({ ino := i } : Fh) s2
      = (some { ino := i }, t) := ⟨_, rfl⟩
  have h3 : (vfs_s_open_fin sup i ({ ino := i } : Fh) s2).2 = s3 :=
    congrArg Prod.snd hs3
  have key3a : s3.lookupSuper sup
      = some { spRec with fd_usage := spRec.fd_usage + 1 } := by
    rw [← h3]
    simp only [vfs_s_open_fin, VfsState.lookupSuper, VfsState.modifyIno,
      VfsState.modifySuper, rmStamp, lookupA_modifyA_self]
    rw [show lookupA s2.supers sup = some spRec from hsp]
    rfl
  obtain ⟨ino1, hino1⟩ : ∃ v : VfsInode,
      ({ ino with st := { ino.st with st_nlink := ino.st.st_nlink + 1 } }
        : VfsInode) = v := ⟨_, rfl⟩
  have key3b : s3.lookupIno i = some ino1 := by
    rw [← hino1, ← h3]
    simp only [vfs_s_open_fin, VfsState.lookupIno, VfsState.modifyIno,
      VfsState.modifySuper, rmStamp, lookupA_modifyA_self]
    rw [show lookupA s2.inodes i = some ino from hino]
    rfl
  have hfld : ino1.st.st_nlink = ino.st.st_nlink + 1 := by rw [← hino1]
  have hnotin : sup ∉ s3.stamps := by
    rw [← h3]
    simp [vfs_s_open_fin, VfsState.modifyIno, VfsState.modifySuper, rmStamp,
      List.mem_filter]
  have hclose : vfs_s_close hooks (m + 1) ({ ino := i } : Fh) s3 =
      (0, vfs_s_free_inode hooks (m + 1) i
        (if spRec.fd_usage = 0
         then stampCreate sup (s3.modifySuper sup
            (fun x => { x with fd_usage := spRec.fd_usage }))
         else s3.modifySuper sup
            (fun x => { x with fd_usage := spRec.fd_usage }))) := by
    simp only [vfs_s_close, key3b, ← hino1, hsup, key3a, hfc, Bool.false_eq_true,
      if_false, false_and, add_sub_cancel_right, reduceCtorEq, reduceIte]
    rw [if_neg (show ¬((-1 : Int) ≠ -1) from by decide)]
  obtain ⟨sA, hsA⟩ : ∃ t, s3.modifySuper sup
      (fun x => { x with fd_usage := spRec.fd_usage }) = t := ⟨_, rfl⟩
  obtain ⟨sB, hsB⟩ : ∃ t,
      (if spRec.fd_usage = 0 then stampCreate sup sA else sA) = t := ⟨_, rfl⟩
  rw [hsA, hsB] at hclose
  have hAi : sA.lookupIno i = some ino1 := by
    rw [← hsA, lookupIno_modifySuper]
    exact key3b
  have hBi : sB.lookupIno i = some ino1 := by
    rw [← hsB]
    split
    · rw [lookupIno_stampCreate]
      exact hAi
    · exact hAi
  have hlt1 : 1 < ino1.st.st_nlink := by
    rw [hfld]
    omega
  have hfree := free_inode_decr hooks m i sB ino1 hBi hlt1
  obtain ⟨v4, hv4⟩ : ∃ v : VfsInode,
      ({ ino1 with st := { ino1.st with st_nlink := ino1.st.st_nlink - 1 } }
        : VfsInode) = v := ⟨_, rfl⟩
  rw [hv4] at hfree
  have hv4n : v4.st.st_nlink = ino.st.st_nlink := by
    rw [← hv4]
    show ino1.st.st_nlink - 1 = ino.st.st_nlink
    rw [hfld]
    omega
  have hAs : sA.lookupSuper sup = some { spRec with fd_usage := spRec.fd_usage } := by
    rw [← hsA, lookupSuper_modifySuper_self, key3a]
    rfl
  have hBs : sB.lookupSuper sup = some { spRec with fd_usage := spRec.fd_usage } := by
    rw [← hsB]
    split
    · rw [lookupSuper_stampCreate]
      exact hAs
    · exact hAs
  refine ⟨s3, sB.setIno i v4, hopen.trans hs3, ⟨_, key3a, rfl⟩, ⟨_, key3b, hfld⟩,
    hnotin, hclose.trans (by rw [hfree]), ?_, ?_, ?_⟩
  · refine ⟨_, ?_, rfl⟩
    rw [lookupSuper_setIno]
    exact hBs
  · refine ⟨v4, ?_, hv4n⟩
    rw [lookupIno_setIno_self, hBi]
    rfl
  · rw [stamps_setIno, ← hsB]
    by_cases hz : spRec.fd_usage = 0
    · rw [if_pos hz]
      have hmem : sup ∈ (stampCreate sup sA).stamps := by
        unfold stampCreate
        split
        · assumption
        · simp
      exact iff_of_true hmem hz
    · rw [if_neg hz]
      have hmem : sup ∉ sA.stamps := by
        rw [← hsA, stamps_modifySuper]
        exact hnotin
      exact iff_of_false hmem hz

theorem claim_open_close_roundtrip_witness :
    (vfs_s_find_inode hooksC7 1 0 "" LINK_FOLLOW {} wOpenS = (some 10, wOpenS))
    ∧ 1 ≤ wOpenIno.st.st_nlink
    ∧ (∃ s3 s4 : VfsState,
        vfs_s_open hooksC7 1 "" {} wOpenS = (some { ino := 10 }, s3)
        ∧ (∃ sp3, s3.lookupSuper 0 = some sp3 ∧ sp3.fd_usage = wOpenSp.fd_usage + 1)
        ∧ (∃ ino3, s3.lookupIno 10 = some ino3
            ∧ ino3.st.st_nlink = wOpenIno.st.st_nlink + 1)
        ∧ 0 ∉ s3.stamps
        ∧ vfs_s_close hooksC7 1 { ino := 10 } s3 = (0, s4)
        ∧ (∃ sp4, s4.lookupSuper 0 = some sp4 ∧ sp4.fd_usage = wOpenSp.fd_usage)
        ∧ (∃ ino4, s4.lookupIno 10 = some ino4
            ∧ ino4.st.st_nlink = wOpenIno.st.st_nlink)
        ∧ (0 ∈ s4.stamps ↔ wOpenSp.fd_usage = 0)) :=
  ⟨rfl, by decide,
    claim_open_close_roundtrip hooksC7 1 0 "" {} wOpenS wOpenS wOpenS 0 10 ""
      wOpenIno wOpenSp rfl rfl rfl rfl rfl (by decide) (by decide) rfl
      (by decide) rfl rfl rfl⟩

/-- C8: `open` fails `EEXIST` when the path resolves and `O_CREAT | O_EXCL`
are both set; returns null with the resolution state untouched (no errno of
its own) when the path does not resolve and `O_CREAT` is absent or the
class is read-only; and fails `EISDIR` when the path resolves to a
directory. -/
theorem claim_open_errors :
    (∀ (hooks : Hooks) (fuel : Nat) (file : String) (oflags : OFlags)
       (s s1 s2 : VfsState) (sup : Nat) (q : String) (i : Nat),
      vfs_s_get_path hooks fuel file false s = (some (sup, q), s1) →
      vfs_s_find_inode hooks fuel sup q LINK_FOLLOW {} s1 = (some i, s2) →
      oflags.creat = true → oflags.excl = true →
      vfs_s_open hooks fuel file oflags s = (none, s2.setErrno EEXIST))
    ∧ (∀ (hooks : Hooks) (fuel : Nat) (file : String) (oflags : OFlags)
       (s s1 s2 : VfsState) (sup : Nat) (q : String),
      vfs_s_get_path hooks fuel file false s = (some (sup, q), s1) →
      vfs_s_find_inode hooks fuel sup q LINK_FOLLOW {} s1 = (none, s2) →
      (oflags.creat = false ∨ hooks.writable = false) →
      vfs_s_open hooks fuel file oflags s = (none, s2))
    ∧ (∀ (hooks : Hooks) (fuel : Nat) (file : String) (oflags : OFlags)
       (s s1 s2 : VfsState) (sup : Nat) (q : String) (i : Nat) (ino : VfsInode),
      vfs_s_get_path hooks fuel file false s = (some (sup, q), s1) →
      vfs_s_find_inode hooks fuel sup q LINK_FOLLOW {} s1 = (some i, s2) →
      s2.lookupIno i = some ino →
      S_ISDIR ino.st.st_mode = true →
      ¬ (oflags.creat = true ∧ oflags.excl = true) →
      vfs_s_open hooks fuel file oflags s = (none, s2.setErrno EISDIR)) := by
  refine ⟨?_, ?_, ?_⟩
  · intro hooks fuel file oflags s s1 s2 sup q i hgp hfi hc he
    simp only [vfs_s_open, hgp, hfi]
    rw [if_pos ⟨hc, he⟩]
  · intro hooks fuel file oflags s s1 s2 sup q hgp hfi h
    simp only [vfs_s_open, hgp, hfi]
    have h2 : ¬ oflags.creat = true ∨ ¬ hooks.writable = true := by
      rcases h with h | h
      · exact Or.inl (by simp [h])
      · exact Or.inr (by simp [h])
    rw [if_pos h2]
  · intro hooks fuel file oflags s s1 s2 sup q i ino hgp hfi hino hd hne
    simp only [vfs_s_open, hgp, hfi, if_neg hne, vfs_s_open_post, hino, hd, reduceIte]

theorem claim_open_errors_witness :
    (vfs_s_find_inode hooksC7 1 0 "" LINK_FOLLOW {} wNoRootS = (none, wNoRootS))
    ∧ S_ISDIR wDirIno.st.st_mode = true
    ∧ (vfs_s_open hooksC7 1 "" { creat := true, excl := true } wOpenS
        = (none, wOpenS.setErrno EEXIST))
    ∧ (vfs_s_open hooksC7 1 "" {} wNoRootS = (none, wNoRootS))
    ∧ (vfs_s_open hooksC7 1 "" {} wDirS = (none, wDirS.setErrno EISDIR)) :=
  ⟨rfl, by decide,
   claim_open_errors.1 hooksC7 1 "" { creat := true, excl := true }
     wOpenS wOpenS wOpenS 0 "" 10 rfl rfl rfl rfl,
   claim_open_errors.2.1 hooksC7 1 "" {} wNoRootS wNoRootS wNoRootS 0 ""
     rfl rfl (Or.inl rfl),
   claim_open_errors.2.2 hooksC7 1 "" {} wDirS wDirS wDirS 0 "" 10 wDirIno
     rfl rfl rfl (by decide) (by decide)⟩

/-- C9: `opendir` resolves with `FL_DIR | FL_FOLLOW` and fails `ENOTDIR` on
a non-directory; on a directory it takes an `nlink` hold and returns a
cursor on the child list, and the following `closedir` releases exactly
that hold through `free_inode`, restoring `nlink`. -/
theorem claim_opendir_closedir :
    (∀ (hooks : Hooks) (fuel : Nat) (dirname : String) (s s1 : VfsState)
       (d : Nat) (ino : VfsInode),
      vfs_s_inode_from_path hooks fuel dirname { dir := true, follow := true } s
        = (some d, s1) →
      s1.lookupIno d = some ino →
      S_ISDIR ino.st.st_mode = false →
      vfs_s_opendir hooks fuel dirname s = (none, s1.setErrno ENOTDIR))
    ∧ (∀ (hooks : Hooks) (fuel m : Nat) (dirname : String) (s s1 : VfsState)
       (d : Nat) (ino : VfsInode),
      vfs_s_inode_from_path hooks fuel dirname { dir := true, follow := true } s
        = (some d, s1) →
      s1.lookupIno d = some ino →
      S_ISDIR ino.st.st_mode = true →
      1 ≤ ino.st.st_nlink →
      ∃ s2 s3 : VfsState,
        vfs_s_opendir hooks fuel dirname s
          = (some { cur := ino.subdir, dir := d }, s2)
        ∧ (∃ ino2, s2.lookupIno d = some ino2
            ∧ ino2.st.st_nlink = ino.st.st_nlink + 1)
        ∧ vfs_s_closedir hooks (m + 1) { cur := ino.subdir, dir := d } s2 = (0, s3)
        ∧ (∃ ino3, s3.lookupIno d = some ino3
            ∧ ino3.st.st_nlink = ino.st.st_nlink)) := by
  constructor
  · intro hooks fuel dirname s s1 d ino hip hino hnd
    simp only [vfs_s_opendir, hip, hino, hnd, Bool.false_eq_true, not_false_iff,
      if_true, reduceIte]
  · intro hooks fuel m dirname s s1 d ino hip hino hd hnl
    have hop : vfs_s_opendir hooks fuel dirname s
        = (some { cur := ino.subdir, dir := d },
           s1.modifyIno d (fun x =>
             { x with st := { x.st with st_nlink := x.st.st_nlink + 1 } })) := by
      simp only [vfs_s_opendir, hip, hino]
      rw [if_neg (by simp [hd])]
    obtain ⟨s2, hs2⟩ : ∃ t, s1.modifyIno d (fun x =>
        { x with st := { x.st with st_nlink := x.st.st_nlink + 1 } }) = t := ⟨_, rfl⟩
    rw [hs2] at hop
    obtain ⟨ino2, hino2⟩ : ∃ v : VfsInode,
        ({ ino with st := { ino.st with st_nlink := ino.st.st_nlink + 1 } }
          : VfsInode) = v := ⟨_, rfl⟩
    have h2i : s2.lookupIno d = some ino2 := by
      rw [← hs2, lookupIno_modifyIno_self, hino, ← hino2]
      rfl
    have hfld : ino2.st.st_nlink = ino.st.st_nlink + 1 := by rw [← hino2]
    have hlt : 1 < ino2.st.st_nlink := by rw [hfld]; omega
    have hfree := free_inode_decr hooks m d s2 ino2 h2i hlt
    obtain ⟨v3, hv3⟩ : ∃ v : VfsInode,
        ({ ino2 with st := { ino2.st with st_nlink := ino2.st.st_nlink - 1 } }
          : VfsInode) = v := ⟨_, rfl⟩
    rw [hv3] at hfree
    refine ⟨s2, s2.setIno d v3, hop, ⟨ino2, h2i, hfld⟩, ?_, ?_⟩
    · show (0, vfs_s_free_inode hooks (m + 1) d s2) = (0, s2.setIno d v3)
      rw [hfree]
    · refine ⟨v3, ?_, ?_⟩
      · rw [lookupIno_setIno_self, h2i]
        rfl
      · rw [← hv3]
        show ino2.st.st_nlink - 1 = ino.st.st_nlink
        rw [hfld]
        omega

theorem claim_opendir_closedir_witness :
    (vfs_s_inode_from_path hooksC7 1 "" { dir := true, follow := true } wDirS
      = (some 10, wDirS))
    ∧ S_ISDIR wDirIno.st.st_mode = true
    ∧ (∃ s2 s3 : VfsState,
        vfs_s_opendir hooksC7 1 "" wDirS = (some { cur := wDirIno.subdir, dir := 10 }, s2)
        ∧ (∃ ino2, s2.lookupIno 10 = some ino2
            ∧ ino2.st.st_nlink = wDirIno.st.st_nlink + 1)
        ∧ vfs_s_closedir hooksC7 1 { cur := wDirIno.subdir, dir := 10 } s2 = (0, s3)
        ∧ (∃ ino3, s3.lookupIno 10 = some ino3
            ∧ ino3.st.st_nlink = wDirIno.st.st_nlink)) :=
  ⟨rfl, by decide,
    claim_opendir_closedir.2 hooksC7 1 0 "" wDirS wDirS 10 wDirIno rfl rfl
      (by decide) (by decide)⟩

/-- C10 (implicit): the `nothingisopen` operation installed by
`vfs_s_init_class` is `vfs_s_nothingisopen`, which returns 1 for every
superblock id unconditionally, never consulting `fd_usage` or any open
handle. -/
theorem claim_nothingisopen (readonly remote : Bool) (id : Nat) :
    (vfs_s_init_class readonly remote).nothingisopen id = 1 ∧
    vfs_s_nothingisopen id = 1 :=
  ⟨rfl, rfl⟩

